import Mathlib

/-!
Verification of the TaskFlow task-management client against its
natural-language specification.

The development is a shallow embedding of the reconciliation core:
the State Owner in `src/App.jsx` (task normalization, sorting, fetch,
local-change and realtime-change reconciliation) and the List Editor in
`src/components/TasksFixed.jsx` (create / edit / toggle / delete with
optimistic apply and rollback, plus the automatic priority-escalation
effects).  JavaScript strings become `String`, numbers become `Int`
(millisecond timestamps), `null`-able values become `Option`, and the
asynchronous persistence layer is made explicit: each operation takes
the outcome of its (single) persistence call as an argument.  The
environment local timezone is modelled as UTC, so date-time strings
without an explicit offset denote UTC instants.
-/

namespace TaskFlow

/-! ### Ordering of natural-number key lists

`String.prototype.localeCompare` with the default locale collates
case-insensitively at primary strength and uses letter case only as a
final tiebreaker (lowercase before uppercase in the default tailoring).
We model it by lexicographic comparison of two numeric key lists: the
case-folded code points first, then per-character case ranks. -/

/-- Three-way comparison on naturals. -/
def cmpNat (a b : Nat) : Ordering :=
  if a < b then .lt else if b < a then .gt else .eq

/-- Lexicographic three-way comparison of lists of naturals. -/
def cmpList : List Nat → List Nat → Ordering
  | [], [] => .eq
  | [], _ :: _ => .lt
  | _ :: _, [] => .gt
  | a :: as, b :: bs =>
    match cmpNat a b with
    | .lt => .lt
    | .gt => .gt
    | .eq => cmpList as bs

/-- Primary collation key: case-folded code points of the string. -/
def foldKey (s : String) : List Nat := s.data.map (fun c => c.toLower.toNat)

/-- Tertiary case rank of one character: lowercase (and caseless) before
uppercase, as in the default collation tailoring. -/
def caseRank (c : Char) : Nat := if c.isUpper then 1 else 0

/-- Tertiary collation key: per-character case ranks. -/
def caseKey (s : String) : List Nat := s.data.map caseRank

/-- Model of `a.localeCompare(b)` under the default locale: compare the
case-folded code points first and use letter case only as a final
tiebreaker.  Only the sign of the result is meaningful, as in
JavaScript. -/
def localeCompare (a b : String) : Int :=
  match cmpList (foldKey a) (foldKey b) with
  | .lt => -1
  | .gt => 1
  | .eq =>
    match cmpList (caseKey a) (caseKey b) with
    | .lt => -1
    | .gt => 1
    | .eq => 0

/-! ### Model of JavaScript date handling

`new Date(string)` on an ISO 8601 date or date-time string and
`Date.prototype.toISOString` are specified by ECMAScript.  We model the
ISO subset the application produces and stores: `YYYY-MM-DD`,
optionally followed by `THH:MM`, `:SS`, `.sss` and an offset
(`Z` or `±HH:MM`).  A date-only string denotes UTC midnight; a
date-time without offset denotes local time, and the local timezone is
modelled as UTC.  Strings outside this grammar, and strings with
out-of-range components, yield an invalid date (`none`). -/

/-- Numeric value of a digit string (the caller checks `allDigits`). -/
def digitsToNat (cs : List Char) : Nat :=
  cs.foldl (fun n c => n * 10 + (c.toNat - 48)) 0

/-- All characters are decimal digits. -/
def allDigits (cs : List Char) : Bool := cs.all Char.isDigit

def isLeapYear (y : Nat) : Bool :=
  y % 4 = 0 && (y % 100 ≠ 0 || y % 400 = 0)

def daysInMonth (y m : Nat) : Nat :=
  if m = 2 then (if isLeapYear y then 29 else 28)
  else if m = 4 ∨ m = 6 ∨ m = 9 ∨ m = 11 then 30
  else 31

/-- Days since the Unix epoch of a proleptic-Gregorian civil date. -/
def daysFromCivil (y : Int) (m d : Nat) : Int :=
  let yy : Int := if m ≤ 2 then y - 1 else y
  let era : Int := yy.ediv 400
  let yoe : Nat := (yy - era * 400).toNat
  let mp : Nat := (m + 9) % 12
  let doy : Nat := (153 * mp + 2) / 5 + d - 1
  let doe : Nat := yoe * 365 + yoe / 4 - yoe / 100 + doy
  era * 146097 + (doe : Int) - 719468

/-- Civil date (year, month, day) of a count of days since the epoch. -/
def civilFromDays (z0 : Int) : Int × Nat × Nat :=
  let z : Int := z0 + 719468
  let era : Int := z.ediv 146097
  let doe : Nat := (z - era * 146097).toNat
  let yoe : Nat := (doe - doe / 1460 + doe / 36524 - doe / 146096) / 365
  let doy : Nat := doe - (365 * yoe + yoe / 4 - yoe / 100)
  let mp : Nat := (5 * doy + 2) / 153
  let d : Nat := doy - (153 * mp + 2) / 5 + 1
  let m : Nat := if mp < 10 then mp + 3 else mp - 9
  (era * 400 + yoe + (if m ≤ 2 then 1 else 0), m, d)

/-- Milliseconds since the Unix epoch of a civil date-time (UTC). -/
def epochMs (y : Int) (mo d hh mi ss ms : Nat) : Int :=
  daysFromCivil y mo d * 86400000 +
    ((hh * 3600000 + mi * 60000 + ss * 1000 + ms : Nat) : Int)

/-- Parse the timezone-offset tail of an ISO date-time.  An absent
offset means local time, which this model equates with UTC. -/
def parseOffsetMs : List Char → Option Int
  | [] => some 0
  | ['Z'] => some 0
  | [sign, h1, h2, ':', m1, m2] =>
    if (sign = '+' ∨ sign = '-') ∧ allDigits [h1, h2, m1, m2] then
      let hh := digitsToNat [h1, h2]
      let mm := digitsToNat [m1, m2]
      if hh ≤ 23 ∧ mm ≤ 59 then
        let total : Int := ((hh * 3600000 + mm * 60000 : Nat) : Int)
        some (if sign = '-' then -total else total)
      else none
    else none
  | _ => none

/-- Parse the optional `:SS(.sss)` part of an ISO time, returning
seconds, milliseconds and the remaining characters. -/
def parseSecondsPart : List Char → Option (Nat × Nat × List Char)
  | ':' :: s1 :: s2 :: rest =>
    if allDigits [s1, s2] then
      let ss := digitsToNat [s1, s2]
      if ss ≤ 59 then
        match rest with
        | '.' :: f1 :: f2 :: f3 :: rest2 =>
          if allDigits [f1, f2, f3] then
            some (ss, digitsToNat [f1, f2, f3], rest2)
          else none
        | _ => some (ss, 0, rest)
      else none
    else none
  | rest => some (0, 0, rest)

/-- Model of `new Date(s).getTime()`: `some` milliseconds since the
epoch for a valid ISO string, `none` for an invalid date (`NaN`). -/
def jsParseDate (s : String) : Option Int :=
  match s.data with
  | y1 :: y2 :: y3 :: y4 :: '-' :: m1 :: m2 :: '-' :: d1 :: d2 :: rest =>
    if allDigits [y1, y2, y3, y4, m1, m2, d1, d2] then
      let year := digitsToNat [y1, y2, y3, y4]
      let month := digitsToNat [m1, m2]
      let day := digitsToNat [d1, d2]
      if 1 ≤ month ∧ month ≤ 12 ∧ 1 ≤ day ∧ day ≤ daysInMonth year month then
        match rest with
        | [] => some (epochMs year month day 0 0 0 0)
        | 'T' :: h1 :: h2 :: ':' :: mi1 :: mi2 :: rest2 =>
          if allDigits [h1, h2, mi1, mi2] then
            let hh := digitsToNat [h1, h2]
            let mi := digitsToNat [mi1, mi2]
            if hh ≤ 23 ∧ mi ≤ 59 then
              match parseSecondsPart rest2 with
              | some (ss, ms, rest3) =>
                match parseOffsetMs rest3 with
                | some off => some (epochMs year month day hh mi ss ms - off)
                | none => none
              | none => none
            else none
          else none
        | _ => none
      else none
    else none
  | _ => none

/-- Left-pad a natural with zeros to the given width. -/
def padNat (w n : Nat) : String :=
  let s := toString n
  String.mk (List.replicate (w - s.length) '0') ++ s

/-- Model of `Date.prototype.toISOString` for years 0–9999. -/
def toISOString (t : Int) : String :=
  let day : Int := t.ediv 86400000
  let rem : Nat := (t - day * 86400000).toNat
  let c := civilFromDays day
  let hh := rem / 3600000
  let mi := rem % 3600000 / 60000
  let ss := rem % 60000 / 1000
  let ms := rem % 1000
  padNat 4 c.1.toNat ++ "-" ++ padNat 2 c.2.1 ++ "-" ++ padNat 2 c.2.2 ++ "T" ++
    padNat 2 hh ++ ":" ++ padNat 2 mi ++ ":" ++ padNat 2 ss ++ "." ++ padNat 3 ms ++ "Z"


/-! ### Data model

`Task` is the normalized in-memory shape used by the application;
`Row` is a raw database record as delivered by the persistence
platform (absent columns are `none`). -/

structure Task where
  id : String
  title : String
  description : String
  dueDate : Option String
  completed : Bool
  priority : String
deriving Repr, DecidableEq

structure Row where
  id : String
  title : String
  description : Option String
  due_date : Option String
  completed : Option Bool
  priority : Option String
deriving Repr, DecidableEq

/-- `normalizeTask` from `src/App.jsx`: converts a database row to the
app shape, defaulting missing fields; `due_date` is passed through
unchanged (`row.due_date ?? null`). -/
def normalizeTask (row : Row) : Task :=
  { id := row.id
    title := row.title
    description := row.description.getD ""
    dueDate := row.due_date
    completed := row.completed.getD false
    priority := row.priority.getD "medium" }

/-- Whitespace in the sense of `String.prototype.trim`. -/
def isJsSpace (c : Char) : Bool := c = ' ' ∨ c = '\t' ∨ c = '\n' ∨ c = '\r'

/-- Model of `s.trim()`: strip leading and trailing whitespace. -/
def jsTrim (s : String) : String :=
  String.mk (((s.data.dropWhile isJsSpace).reverse.dropWhile isJsSpace).reverse)

/-- Replace the first space by `T`, as `trimmed.replace(" ", "T")`
does for a single-character search string (first occurrence only). -/
def replaceFirstSpace : List Char → List Char
  | [] => []
  | c :: cs => if c = ' ' then 'T' :: cs else c :: replaceFirstSpace cs

/-- `normalizeDueDateValue` from `src/components/TasksFixed.jsx`.
Database rows deliver the `due_date` column as a string or `null`
(never a `Date` object), so the `instanceof Date` branch of the source
is not reachable in this model. -/
def normalizeDueDateValue (value : Option String) : Option String :=
  match value with
  | none => none
  | some s =>
    if s = "" then none
    else
      let trimmed := jsTrim s
      if trimmed = "" then none
      else
        let normalizedString :=
          if trimmed.data.contains 'T' then trimmed
          else String.mk (replaceFirstSpace trimmed.data)
        match jsParseDate normalizedString with
        | none => none
        | some t => some (toISOString t)

/-- `mapTaskRow` from `src/components/TasksFixed.jsx`: like
`normalizeTask` but canonicalizing the due date. -/
def mapTaskRow (row : Row) : Task :=
  { id := row.id
    title := row.title
    description := row.description.getD ""
    dueDate := normalizeDueDateValue row.due_date
    completed := row.completed.getD false
    priority := row.priority.getD "medium" }

/-! ### The sort policy (`sortTasks` in `src/App.jsx`) -/

/-- The comparator key: `a?.dueDate ? new Date(a.dueDate).getTime() :
NaN`, with `none` standing for `NaN` (absent, empty or unparseable due
date). -/
def dueTime (t : Task) : Option Int :=
  match t.dueDate with
  | none => none
  | some s => if s = "" then none else jsParseDate s

/-- The comparator body of `sortTasks`.  Only the sign matters. -/
def taskCmp (a b : Task) : Int :=
  match dueTime a, dueTime b with
  | some ta, some tb => if ta ≠ tb then ta - tb else localeCompare a.title b.title
  | some _, none => -1
  | none, some _ => 1
  | none, none => localeCompare a.title b.title

/-- The non-strict order induced by the comparator. -/
def TaskLE (a b : Task) : Prop := taskCmp a b ≤ 0

instance : DecidableRel TaskLE :=
  fun a b => inferInstanceAs (Decidable (taskCmp a b ≤ 0))

/-- `sortTasks`: `[...collection].sort(comparator)`.  JavaScript
`Array.prototype.sort` is a stable sort, and for a consistent
comparator every stable sort yields the same list, so insertion sort
on the induced order is an exact model. -/
def sortTasks (collection : List Task) : List Task :=
  List.insertionSort TaskLE collection

/-! ### State Owner operations (`src/App.jsx`) -/

/-- A JavaScript value passed to the child-update callback: either an
array of tasks or any non-array value. -/
inductive ChildValue
  | list (l : List Task)
  | notList
deriving Repr

/-- The argument of `handleChildTasksChange`: a replacement value or an
updater function of the previous list. -/
inductive ChildArg
  | value (v : ChildValue)
  | updater (f : List Task → ChildValue)

/-- `typeof nextValue === "function" ? nextValue(prev) : nextValue`. -/
def resolveChild : ChildArg → List Task → ChildValue
  | .value v, _ => v
  | .updater f, prev => f prev

/-- `handleChildTasksChange` from `src/App.jsx`: resolve the updater,
keep the previous list when the result is not an array, otherwise
re-sort and store. -/
def handleChildTasksChange (nextValue : ChildArg) (prev : List Task) : List Task :=
  match resolveChild nextValue prev with
  | .notList => prev
  | .list resolved => sortTasks resolved

/-- A realtime subscription payload.  The callback is only invoked
with a payload object, so the `!payload` guard of the source is not
modelled separately. -/
structure Payload where
  eventType : String
  old : Option Row
  new : Option Row

/-- The INSERT/UPDATE tail of `applyRealtimeChange`: no-op without a
new record, append when the id is unseen, replace otherwise, then
re-sort. -/
def applyUpsert (newRec : Option Row) (current : List Task) : List Task :=
  match newRec with
  | none => current
  | some row =>
    let incoming := normalizeTask row
    match current.findIdx? (fun task => task.id = incoming.id) with
    | none => sortTasks (current ++ [incoming])
    | some existingIndex => sortTasks (current.set existingIndex incoming)

/-- `applyRealtimeChange` from `src/App.jsx`.  The DELETE branch needs
`payload.old?.id` truthy (an empty-string id is falsy in JavaScript). -/
def applyRealtimeChange (payload : Payload) (current : List Task) : List Task :=
  match payload.old with
  | some o =>
    if payload.eventType = "DELETE" ∧ o.id ≠ "" then
      current.filter (fun task => task.id ≠ o.id)
    else applyUpsert payload.new current
  | none => applyUpsert payload.new current

/-- The State Owner state: the task list plus its loading flag and
retrievable error message. -/
structure OwnerSt where
  tasks : List Task
  tasksLoading : Bool
  tasksError : String
deriving Repr, DecidableEq

/-- Outcome of the initial fetch: a platform response `{data, error}`
(`ok`/`err`) or a thrown exception whose message may be absent. -/
inductive FetchOutcome
  | ok (data : Option (List Row))
  | err (msg : String)
  | thrown (msg : Option String)
deriving Repr

/-- `fetchTasks` from `src/App.jsx`, as the state it leaves behind
once the call has settled (the `finally` clause has cleared the
loading flag).  The `try`/`catch` makes the function total: every
outcome, including a thrown exception, produces a state. -/
def fetchTasks (currentUser : Option String) (outcome : FetchOutcome) : OwnerSt :=
  match currentUser with
  | none => { tasks := [], tasksLoading := false, tasksError := "" }
  | some _ =>
    match outcome with
    | .ok data =>
      { tasks := sortTasks ((data.getD []).map normalizeTask)
        tasksLoading := false
        tasksError := "" }
    | .err msg => { tasks := [], tasksLoading := false, tasksError := msg }
    | .thrown msg =>
      { tasks := [], tasksLoading := false, tasksError := msg.getD "Failed to load tasks" }

/-! ### List Editor helpers (`src/components/TasksFixed.jsx`) -/

/-- `DAY_IN_MS`. -/
def DAY_IN_MS : Int := 86400000

/-- `shouldAutoElevatePriority`: due now or past, or within one day. -/
def shouldAutoElevatePriority (dueDate : Option String) (nowTs : Int) : Bool :=
  match dueDate with
  | none => false
  | some s =>
    if s = "" then false
    else
      match jsParseDate s with
      | none => false
      | some t =>
        let diff := t - nowTs
        if diff ≤ 0 then true else diff ≤ DAY_IN_MS

/-- `shouldAutoPromoteToMedium`: due strictly more than one and at
most two days from now. -/
def shouldAutoPromoteToMedium (dueDate : Option String) (nowTs : Int) : Bool :=
  match dueDate with
  | none => false
  | some s =>
    if s = "" then false
    else
      match jsParseDate s with
      | none => false
      | some t =>
        let diff := t - nowTs
        diff > DAY_IN_MS && diff ≤ DAY_IN_MS * 2

/-- `didExtendDueDate`: both dates present and parseable, and the next
one strictly later. -/
def didExtendDueDate (previousDueDate nextDueDate : Option String) : Bool :=
  match previousDueDate, nextDueDate with
  | some p, some n =>
    if p = "" ∨ n = "" then false
    else
      match jsParseDate p, jsParseDate n with
      | some tp, some tn => tn > tp
      | _, _ => false
  | _, _ => false

/-- Model of `Number(s)` on the integer form inputs: trimmed-empty is
`0`, a digit string is its value, anything else is `NaN` (`none`).
Fractional inputs are outside the grammar the forms produce and are
treated as `NaN`. -/
def jsNumber (s : String) : Option Int :=
  let t := jsTrim s
  if t = "" then some 0
  else if allDigits t.data then some ((digitsToNat t.data : Nat) : Int)
  else none

/-- `String(n).padStart(2, "0")`. -/
def padStart2 (s : String) : String :=
  String.mk (List.replicate (2 - s.data.length) '0') ++ s

/-- `setHours(0, 0, 0, 0)` on an instant, with local time modelled as
UTC: the start of the instant's day. -/
def startOfDayUtc (ts : Int) : Int := ts - ts.emod 86400000

/-- The `/^\d{4}-\d{2}-\d{2}$/` test. -/
def isIsoDateShape (cs : List Char) : Bool :=
  match cs with
  | [a, b, c, d, '-', e, f, '-', g, h] => allDigits [a, b, c, d, e, f, g, h]
  | _ => false

/-- `buildUtcDate`: convert the 12-hour form fields into a local
date-time string, parse it, and render the instant as ISO. -/
def buildUtcDate (date hour minute period : String) : Option String :=
  if date = "" then none
  else
    match jsNumber hour with
    | none => none
    | some h0 =>
      let h :=
        if period = "PM" ∧ h0 ≠ 12 then h0 + 12
        else if period = "AM" ∧ h0 = 12 then 0
        else h0
      match jsNumber minute with
      | none => none
      | some minuteValue =>
        let minuteString := padStart2 (toString minuteValue)
        let hourString := padStart2 (toString h)
        match jsParseDate (date ++ "T" ++ hourString ++ ":" ++ minuteString ++ ":00") with
        | none => none
        | some t => some (toISOString t)

/-- `buildDueDateIso`: empty or malformed date yields `null`. -/
def buildDueDateIso (dateInput hourInput minuteInput periodInput : String) : Option String :=
  if dateInput = "" then none
  else if ¬isIsoDateShape dateInput.data then none
  else buildUtcDate dateInput hourInput minuteInput periodInput

/-- A `{valid, message}` validation result. -/
structure Validation where
  valid : Bool
  message : String
deriving Repr, DecidableEq

/-- `validateDueDate`: shape, range, calendar and not-in-the-past
checks on a `YYYY-MM-DD` field value. -/
def validateDueDate (now : Int) (dateString : String) : Validation :=
  if dateString = "" then ⟨false, "Please select a due date"⟩
  else
    match dateString.data with
    | [y1, y2, y3, y4, '-', m1, m2, '-', d1, d2] =>
      if ¬allDigits [y1, y2, y3, y4, m1, m2, d1, d2] then
        ⟨false, "Enter a valid date (YYYY-MM-DD)"⟩
      else
        let year := digitsToNat [y1, y2, y3, y4]
        let month := digitsToNat [m1, m2]
        let day := digitsToNat [d1, d2]
        if year < 1900 ∨ year > 2100 then ⟨false, "Year must be between 1900 and 2100"⟩
        else if month < 1 ∨ month > 12 then ⟨false, "Enter a valid month"⟩
        else if day < 1 ∨ day > 31 then ⟨false, "Enter a valid day"⟩
        else
          match jsParseDate (dateString ++ "T00:00:00") with
          | none => ⟨false, "Enter a real calendar date"⟩
          | some candidateTs =>
            let c := civilFromDays (candidateTs.ediv 86400000)
            if c.1 ≠ (year : Int) ∨ c.2.1 ≠ month ∨ c.2.2 ≠ day then
              ⟨false, "Enter a real calendar date"⟩
            else if startOfDayUtc candidateTs < startOfDayUtc now then
              ⟨false, "Due date cannot be in the past"⟩
            else ⟨true, ""⟩
    | _ => ⟨false, "Enter a valid date (YYYY-MM-DD)"⟩

/-- `validateTimeFields`: `none` when valid, otherwise the error
message it surfaces. -/
def validateTimeFields (hourValue minuteValue : String) : Option String :=
  if jsTrim hourValue = "" ∨ jsTrim minuteValue = "" then some "Please enter a due time"
  else
    match jsNumber hourValue with
    | none => some "Hour must be between 1 and 12"
    | some hour =>
      if hour < 1 ∨ hour > 12 then some "Hour must be between 1 and 12"
      else
        match jsNumber minuteValue with
        | none => some "Minutes must be between 0 and 59"
        | some minute =>
          if minute < 0 ∨ minute > 59 then some "Minutes must be between 0 and 59"
          else none

/-! ### List Editor state and operations

The model keeps the state the claims are about: the task list, the
mutation-in-flight gate, the surfaced error strings, and the two
auto-priority seen-sets.  Purely presentational state (menus, toasts,
expanded rows, the composer fields themselves) is omitted.  The
`updated_at` stamp the edit path adds is not part of the normalized
`Task` shape and is dropped (a failed edit restores the full
pre-edit snapshot either way).  Each operation returns the state after
its persistence call has settled, together with the persistence calls
it issued. -/

structure EditorSt where
  tasks : List Task
  isMutating : Bool
  mutationError : String
  dateError : String
  timeError : String
  editDateError : String
  editTimeError : String
  seenAutoHigh : List String
  seenAutoMedium : List String
deriving Repr, DecidableEq

/-- A persistence call, identified by operation and payload. -/
inductive NetCall
  | insertTask (userId title description : String) (due_date : Option String)
      (completed : Bool) (priority : String)
  | updateToggle (id userId : String) (completed : Bool)
  | updateTask (id userId title description : String) (due_date : Option String)
      (completed : Bool) (priority : String)
  | updatePriorityBulk (ids : List String) (userId priority : String)
  | deleteTask (id userId : String)
deriving Repr, DecidableEq

/-- Outcome of a `.select().single()` write: a data row, a null row
without error, a platform error, or a thrown exception. -/
inductive WriteOutcome
  | ok (row : Row)
  | okNone
  | err (msg : String)
  | thrown (msg : Option String)
deriving Repr, DecidableEq

/-- Outcome of a write whose response data is unused. -/
inductive SimpleOutcome
  | ok
  | err (msg : String)
  | thrown (msg : Option String)
deriving Repr, DecidableEq

/-- Outcome of the bulk priority update (`.then` handles only the
error field). -/
inductive BulkOutcome
  | ok
  | err (msg : String)
deriving Repr, DecidableEq

/-- `toggleTask`: optimistic flip of `completed`, then update; restore
the snapshot on error, adopt the echoed row on success. -/
def toggleTask (user : Option String) (id : String) (outcome : WriteOutcome)
    (st : EditorSt) : EditorSt × List NetCall :=
  if st.isMutating then (st, [])
  else
    match st.tasks.find? (fun task => task.id = id), user with
    | none, some _ => ({ st with mutationError := "Task not found." }, [])
    | _, none => ({ st with mutationError := "You must be signed in to update tasks." }, [])
    | some targetTask, some uid =>
      let nextCompleted := !targetTask.completed
      let optimisticSnapshot := targetTask
      let afterOptimistic := st.tasks.map (fun task =>
        if task.id = targetTask.id then { task with completed := nextCompleted } else task)
      let call := NetCall.updateToggle id uid nextCompleted
      match outcome with
      | .ok row =>
        ({ st with
            tasks := afterOptimistic.map (fun task =>
              if task.id = row.id then mapTaskRow row else task)
            isMutating := false
            mutationError := "" }, [call])
      | .okNone =>
        ({ st with tasks := afterOptimistic, isMutating := false, mutationError := "" }, [call])
      | .err msg =>
        ({ st with
            tasks := afterOptimistic.map (fun task =>
              if task.id = optimisticSnapshot.id then optimisticSnapshot else task)
            isMutating := false
            mutationError := msg }, [call])
      | .thrown msgOpt =>
        ({ st with
            tasks := afterOptimistic.map (fun task =>
              if task.id = optimisticSnapshot.id then optimisticSnapshot else task)
            isMutating := false
            mutationError := msgOpt.getD "Failed to update task" }, [call])

/-- `handleDeleteTask`: no optimistic removal; the task is removed
locally only on confirmation. -/
def handleDeleteTask (user : Option String) (taskId : String) (outcome : SimpleOutcome)
    (st : EditorSt) : EditorSt × List NetCall :=
  if st.isMutating then (st, [])
  else
    match user with
    | none => ({ st with mutationError := "You must be signed in to delete tasks." }, [])
    | some uid =>
      let call := NetCall.deleteTask taskId uid
      match outcome with
      | .ok =>
        ({ st with
            tasks := st.tasks.filter (fun task => task.id ≠ taskId)
            isMutating := false
            mutationError := "" }, [call])
      | .err msg => ({ st with isMutating := false, mutationError := msg }, [call])
      | .thrown msgOpt =>
        ({ st with
            isMutating := false
            mutationError := msgOpt.getD "Failed to delete task" }, [call])

/-- The composer form fields of the create path. -/
structure NewTaskForm where
  title : String
  description : String
  date : String
  hour : String
  minute : String
  period : String
  priority : String
deriving Repr, DecidableEq

/-- `handleAddTask`: validate, then insert bound to the identity; the
row appears locally only once the server confirms. -/
def handleAddTask (now : Int) (user : Option String) (form : NewTaskForm)
    (outcome : WriteOutcome) (st : EditorSt) : EditorSt × List NetCall :=
  if st.isMutating then (st, [])
  else
    let title := jsTrim form.title
    if title = "" then (st, [])
    else
      let v := validateDueDate now form.date
      if ¬v.valid then ({ st with dateError := v.message }, [])
      else
        let st1 := { st with dateError := "" }
        match validateTimeFields form.hour form.minute with
        | some msg => ({ st1 with timeError := msg }, [])
        | none =>
          let st2 := { st1 with timeError := "" }
          match user with
          | none => ({ st2 with mutationError := "You must be signed in to add tasks." }, [])
          | some uid =>
            let dueDateIso := buildDueDateIso form.date form.hour form.minute form.period
            let pastStop : Option EditorSt :=
              match dueDateIso with
              | none => none
              | some iso =>
                match jsParseDate iso with
                | none => none
                | some dueTs =>
                  if startOfDayUtc dueTs < startOfDayUtc now then
                    some { st2 with dateError := "Due date cannot be in the past", timeError := "" }
                  else if startOfDayUtc dueTs = startOfDayUtc now ∧ dueTs ≤ now then
                    some { st2 with dateError := "", timeError := "Due time cannot be in the past" }
                  else if dueTs ≤ now then
                    some { st2 with dateError := "", timeError := "Due time cannot be in the past" }
                  else none
            match pastStop with
            | some stopped => (stopped, [])
            | none =>
              let st3 := { st2 with dateError := "", timeError := "" }
              let call := NetCall.insertTask uid title (jsTrim form.description) dueDateIso
                false form.priority
              match outcome with
              | .ok row =>
                ({ st3 with
                    tasks := st3.tasks ++ [mapTaskRow row]
                    isMutating := false
                    mutationError := "" }, [call])
              | .okNone => ({ st3 with isMutating := false, mutationError := "" }, [call])
              | .err msg => ({ st3 with isMutating := false, mutationError := msg }, [call])
              | .thrown msgOpt =>
                ({ st3 with
                    isMutating := false
                    mutationError := msgOpt.getD "Failed to add task" }, [call])

/-- The edit-overlay form fields. -/
structure EditFields where
  title : String
  description : String
  date : String
  hour : String
  minute : String
  period : String
  status : String
  priority : String
deriving Repr, DecidableEq

/-- The tail of `saveEditTask` after all date and time validation:
look up the task, apply the auto-reopen business rule, detect no-op
edits, optimistically apply, and reconcile or roll back. -/
def saveEditCore (user : Option String) (editTaskId : String) (fields : EditFields)
    (title normalizedDescription selectedPriority : String) (dueDateIso : Option String)
    (outcome : WriteOutcome) (st : EditorSt) : EditorSt × List NetCall :=
  match st.tasks.find? (fun task => task.id = editTaskId) with
  | none => ({ st with mutationError := "Task not found. Please refresh and try again." }, [])
  | some currentTask =>
    let normalizedCurrentTitle := jsTrim currentTask.title
    let normalizedCurrentDescription := jsTrim currentTask.description
    let normalizedCurrentDueDate : Option String :=
      match currentTask.dueDate with
      | none => none
      | some s =>
        match jsParseDate s with
        | some t => some (toISOString t)
        | none => some s
    let completed0 := fields.status = "completed"
    let completed :=
      if completed0 ∧ didExtendDueDate currentTask.dueDate dueDateIso then false
      else completed0
    let hasChanges :=
      normalizedCurrentTitle ≠ title ∨
      normalizedCurrentDescription ≠ normalizedDescription ∨
      normalizedCurrentDueDate ≠ dueDateIso ∨
      currentTask.completed ≠ completed ∨
      currentTask.priority ≠ selectedPriority
    if ¬hasChanges then (st, [])
    else
      match user with
      | none => ({ st with mutationError := "You must be signed in to update tasks." }, [])
      | some uid =>
        let optimisticSnapshot := currentTask
        let afterOptimistic := st.tasks.map (fun task =>
          if task.id = currentTask.id then
            { task with
                title := title
                description := normalizedDescription
                dueDate := dueDateIso
                completed := completed
                priority := selectedPriority }
          else task)
        let call := NetCall.updateTask editTaskId uid title normalizedDescription dueDateIso
          completed selectedPriority
        match outcome with
        | .ok row =>
          ({ st with
              tasks := afterOptimistic.map (fun task =>
                if task.id = row.id then mapTaskRow row else task)
              isMutating := false
              mutationError := "" }, [call])
        | .okNone =>
          ({ st with tasks := afterOptimistic, isMutating := false, mutationError := "" }, [call])
        | .err msg =>
          ({ st with
              tasks := afterOptimistic.map (fun task =>
                if task.id = optimisticSnapshot.id then optimisticSnapshot else task)
              isMutating := false
              mutationError := msg }, [call])
        | .thrown msgOpt =>
          ({ st with
              tasks := afterOptimistic.map (fun task =>
                if task.id = optimisticSnapshot.id then optimisticSnapshot else task)
              isMutating := false
              mutationError := msgOpt.getD "Failed to update task" }, [call])

/-- The due date an edit submission computes: `null` when the date
field is empty, otherwise `buildDueDateIso` over the form fields. -/
def editDueDateIso (fields : EditFields) : Option String :=
  if fields.date = "" then none
  else buildDueDateIso fields.date fields.hour fields.minute fields.period

/-- `saveEditTask`: the mutation gate, title and date-field validation
and the not-in-the-past checks, then `saveEditCore`. -/
def saveEditTask (now : Int) (user : Option String) (editTaskId : String)
    (fields : EditFields) (outcome : WriteOutcome) (st : EditorSt) : EditorSt × List NetCall :=
  if st.isMutating then (st, [])
  else
    let title := jsTrim fields.title
    if title = "" then (st, [])
    else if fields.date ≠ "" ∧ ¬(validateDueDate now fields.date).valid then
      ({ st with editDateError := (validateDueDate now fields.date).message }, [])
    else
      let st1 :=
        if fields.date = "" then { st with editDateError := "", editTimeError := "" }
        else { st with editTimeError := "" }
      let dueDateIso := editDueDateIso fields
      let normalizedDescription := jsTrim fields.description
      let selectedPriority := if fields.priority = "" then "medium" else fields.priority
      let pastStop : Option EditorSt :=
        match dueDateIso with
        | none => none
        | some iso =>
          match jsParseDate iso with
          | none => none
          | some dueTs =>
            if startOfDayUtc dueTs < startOfDayUtc now then
              some { st1 with
                editDateError := "Due date cannot be in the past"
                editTimeError := "" }
            else if dueTs ≤ now then
              some { st1 with editDateError := "", editTimeError := "Due time cannot be in the past" }
            else none
      match pastStop with
      | some stopped => (stopped, [])
      | none =>
        saveEditCore user editTaskId fields title normalizedDescription selectedPriority
          dueDateIso outcome { st1 with editDateError := "", editTimeError := "" }

/-- The filter of the auto-high effect: active, not already high, due
within a day or past. -/
def autoHighPred (now : Int) (task : Task) : Bool :=
  !task.completed && decide (task.priority ≠ "high") &&
    shouldAutoElevatePriority task.dueDate now

/-- The filter of the auto-medium effect: low priority and due between
one and two days from now (no completed check, as in the source). -/
def autoMediumPred (now : Int) (task : Task) : Bool :=
  decide (task.priority = "low") && shouldAutoPromoteToMedium task.dueDate now

/-- The auto-high-priority background effect: elevate every active,
non-high task due within a day, and persist the change once per id via
the seen-set; on persistence error the seen-set entries are removed
and an error is surfaced, but the in-memory list keeps the elevated
priorities. -/
def autoHighEffect (now : Int) (userId : Option String) (outcome : BulkOutcome)
    (st : EditorSt) : EditorSt × List NetCall :=
  if st.tasks.isEmpty then (st, [])
  else
    let dueSoonTasks := st.tasks.filter (autoHighPred now)
    if dueSoonTasks.isEmpty then (st, [])
    else
      let dueSoonIds := dueSoonTasks.map Task.id
      let st1 := { st with
        tasks := st.tasks.map (fun task =>
          if dueSoonIds.contains task.id then { task with priority := "high" } else task) }
      match userId with
      | none => (st1, [])
      | some uid =>
        let idsToPersist := dueSoonIds.filter (fun id => !st.seenAutoHigh.contains id)
        if idsToPersist.isEmpty then (st1, [])
        else
          let st2 := { st1 with seenAutoHigh := st1.seenAutoHigh ++ idsToPersist }
          let call := NetCall.updatePriorityBulk idsToPersist uid "high"
          match outcome with
          | .ok => (st2, [call])
          | .err msg =>
            ({ st2 with
                seenAutoHigh := st2.seenAutoHigh.filter (fun id => !idsToPersist.contains id)
                mutationError := if st2.mutationError ≠ "" then st2.mutationError else msg },
              [call])

/-- The auto-medium-priority background effect for low-priority tasks
due between one and two days from now. -/
def autoMediumEffect (now : Int) (userId : Option String) (outcome : BulkOutcome)
    (st : EditorSt) : EditorSt × List NetCall :=
  if st.tasks.isEmpty then (st, [])
  else
    let mediumCandidates := st.tasks.filter (autoMediumPred now)
    if mediumCandidates.isEmpty then (st, [])
    else
      let mediumIds := mediumCandidates.map Task.id
      let st1 := { st with
        tasks := st.tasks.map (fun task =>
          if mediumIds.contains task.id then { task with priority := "medium" } else task) }
      match userId with
      | none => (st1, [])
      | some uid =>
        let idsToPersist := mediumIds.filter (fun id => !st.seenAutoMedium.contains id)
        if idsToPersist.isEmpty then (st1, [])
        else
          let st2 := { st1 with seenAutoMedium := st1.seenAutoMedium ++ idsToPersist }
          let call := NetCall.updatePriorityBulk idsToPersist uid "medium"
          match outcome with
          | .ok => (st2, [call])
          | .err msg =>
            ({ st2 with
                seenAutoMedium := st2.seenAutoMedium.filter (fun id => !idsToPersist.contains id)
                mutationError := if st2.mutationError ≠ "" then st2.mutationError else msg },
              [call])

/-- The effect keyed on the identity: switching users clears both
auto-priority seen-sets. -/
def clearAutoSeenOnIdentityChange (st : EditorSt) : EditorSt :=
  { st with seenAutoHigh := [], seenAutoMedium := [] }

/-! ### Statement vocabulary for the ordering claim

These definitions restate the ordering promised by the specification;
they are compared against the behaviour of `sortTasks`. -/

/-- Case-insensitive title order: the case-folded key of `a` is not
greater than that of `b`. -/
def ciLe (a b : String) : Prop := cmpList (foldKey a) (foldKey b) ≠ .gt

/-- The order the specification promises: dated tasks before undated
ones; dated tasks by ascending due timestamp with ties broken
case-insensitively by title; undated tasks case-insensitively by
title. -/
def specOrder (a b : Task) : Prop :=
  match dueTime a, dueTime b with
  | some ta, some tb => ta < tb ∨ (ta = tb ∧ ciLe a.title b.title)
  | some _, none => True
  | none, some _ => False
  | none, none => ciLe a.title b.title

/-- The id-uniqueness invariant of the in-memory list: at most one
task per id. -/
def UniqueIds (l : List Task) : Prop := (l.map Task.id).Nodup

/-- A `.single()` write outcome that is a failure (platform error or
thrown exception). -/
def writeFailed : WriteOutcome → Bool
  | .err _ => true
  | .thrown _ => true
  | _ => false

/-- A data-less write outcome that is a failure. -/
def simpleFailed : SimpleOutcome → Bool
  | .err _ => true
  | .thrown _ => true
  | _ => false

/-- A quiescent sample editor state for concrete witnesses. -/
def sampleSt : EditorSt :=
  { tasks := [{ id := "a", title := "a", description := "", dueDate := none,
                completed := false, priority := "medium" }]
    isMutating := false
    mutationError := ""
    dateError := ""
    timeError := ""
    editDateError := ""
    editTimeError := ""
    seenAutoHigh := []
    seenAutoMedium := [] }

/-- The sample state with a mutation in flight. -/
def sampleBusySt : EditorSt := { sampleSt with isMutating := true }

/-- A well-formed sample composer form. -/
def sampleForm : NewTaskForm :=
  { title := "t", description := "", date := "2024-01-02", hour := "09",
    minute := "00", period := "AM", priority := "medium" }

/-- A sample edit form. -/
def sampleFields : EditFields :=
  { title := "t", description := "", date := "", hour := "", minute := "",
    period := "AM", status := "active", priority := "medium" }

/-- A completed sample task with a due date, for the auto-reopen
witness. -/
def reopenTask : Task :=
  { id := "a", title := "a", description := "",
    dueDate := some "2024-01-01T10:00:00.000Z",
    completed := true, priority := "medium" }

/-- An edit form that keeps status "completed" but moves the due date
a day later. -/
def reopenFields : EditFields :=
  { title := "t", description := "", date := "2024-01-02", hour := "09",
    minute := "00", period := "AM", status := "completed", priority := "medium" }

/-- The sample state holding `reopenTask`. -/
def reopenSt : EditorSt := { sampleSt with tasks := [reopenTask] }

/-! ## Theorems -/

theorem cmpNat_lt_iff {a b : Nat} : cmpNat a b = .lt ↔ a < b := by
  unfold cmpNat
  split <;> rename_i h
  · simpa using h
  · split <;> simp <;> omega

theorem cmpNat_gt_iff {a b : Nat} : cmpNat a b = .gt ↔ b < a := by
  unfold cmpNat
  split <;> rename_i h
  · simp; omega
  · split <;> rename_i h2 <;> simp <;> omega

theorem cmpNat_eq_iff {a b : Nat} : cmpNat a b = .eq ↔ a = b := by
  unfold cmpNat
  split <;> rename_i h
  · simp; omega
  · split <;> rename_i h2 <;> simp <;> omega

theorem cmpNat_swap (a b : Nat) : cmpNat b a = (cmpNat a b).swap := by
  cases h : cmpNat a b with
  | lt => rw [cmpNat_lt_iff] at h; rw [cmpNat_gt_iff.mpr h]; rfl
  | gt => rw [cmpNat_gt_iff] at h; rw [cmpNat_lt_iff.mpr h]; rfl
  | eq => rw [cmpNat_eq_iff] at h; subst h; rw [cmpNat_eq_iff.mpr rfl]; rfl

theorem cmpNat_lt_trans {a b c : Nat} (h1 : cmpNat a b = .lt) (h2 : cmpNat b c = .lt) :
    cmpNat a c = .lt := by
  rw [cmpNat_lt_iff] at *
  omega

theorem cmpList_eq_iff : ∀ {xs ys : List Nat}, cmpList xs ys = .eq ↔ xs = ys := by
  intro xs
  induction xs with
  | nil => intro ys; cases ys <;> simp [cmpList]
  | cons a as ih =>
    intro ys
    cases ys with
    | nil => simp [cmpList]
    | cons b bs =>
      simp only [cmpList]
      cases hab : cmpNat a b with
      | lt =>
        have : a ≠ b := fun h => by
          rw [h] at hab; rw [cmpNat_eq_iff.mpr rfl] at hab; cases hab
        simp [this]
      | gt =>
        have : a ≠ b := fun h => by
          rw [h] at hab; rw [cmpNat_eq_iff.mpr rfl] at hab; cases hab
        simp [this]
      | eq =>
        have hab' : a = b := cmpNat_eq_iff.mp hab
        subst hab'
        simp [ih]

theorem cmpList_swap : ∀ (xs ys : List Nat), cmpList ys xs = (cmpList xs ys).swap := by
  intro xs
  induction xs with
  | nil => intro ys; cases ys <;> rfl
  | cons a as ih =>
    intro ys
    cases ys with
    | nil => rfl
    | cons b bs =>
      simp only [cmpList, cmpNat_swap a b]
      cases cmpNat a b with
      | lt => rfl
      | gt => rfl
      | eq => simpa using ih bs

theorem cmpList_lt_trans : ∀ {xs ys zs : List Nat},
    cmpList xs ys = .lt → cmpList ys zs = .lt → cmpList xs zs = .lt := by
  intro xs
  induction xs with
  | nil =>
    intro ys zs h1 h2
    cases ys with
    | nil => exact h2
    | cons b bs =>
      cases zs with
      | nil => simp [cmpList] at h2
      | cons c cs => rfl
  | cons a as ih =>
    intro ys zs h1 h2
    cases ys with
    | nil => simp [cmpList] at h1
    | cons b bs =>
      cases zs with
      | nil => simp [cmpList] at h2
      | cons c cs =>
        simp only [cmpList] at h1 h2 ⊢
        cases hab : cmpNat a b with
        | gt => rw [hab] at h1; cases h1
        | lt =>
          cases hbc : cmpNat b c with
          | gt => rw [hbc] at h2; cases h2
          | lt => rw [cmpNat_lt_trans hab hbc]
          | eq =>
            have hbc' : b = c := cmpNat_eq_iff.mp hbc
            subst hbc'
            rw [hab]
        | eq =>
          have hab' : a = b := cmpNat_eq_iff.mp hab
          subst hab'
          rw [hab] at h1
          cases hac : cmpNat a c with
          | lt => rfl
          | gt => rw [hac] at h2; cases h2
          | eq =>
            rw [hac] at h2
            exact ih h1 h2

/-! ### Model of default-locale string comparison -/

theorem localeCompare_swap (a b : String) : localeCompare b a = -localeCompare a b := by
  unfold localeCompare
  rw [cmpList_swap (foldKey a) (foldKey b), cmpList_swap (caseKey a) (caseKey b)]
  cases cmpList (foldKey a) (foldKey b) <;>
    cases cmpList (caseKey a) (caseKey b) <;> rfl

theorem cmpList_ngt_trans {xs ys zs : List Nat}
    (h1 : cmpList xs ys ≠ .gt) (h2 : cmpList ys zs ≠ .gt) : cmpList xs zs ≠ .gt := by
  cases hxy : cmpList xs ys with
  | gt => exact absurd hxy h1
  | eq =>
    have : xs = ys := cmpList_eq_iff.mp hxy
    subst this; exact h2
  | lt =>
    cases hyz : cmpList ys zs with
    | gt => exact absurd hyz h2
    | eq =>
      have : ys = zs := cmpList_eq_iff.mp hyz
      subst this; rw [hxy]; simp
    | lt => rw [cmpList_lt_trans hxy hyz]; simp

theorem localeCompare_le_iff {a b : String} :
    localeCompare a b ≤ 0 ↔
      (cmpList (foldKey a) (foldKey b) = .lt ∨
        (foldKey a = foldKey b ∧ cmpList (caseKey a) (caseKey b) ≠ .gt)) := by
  unfold localeCompare
  cases hf : cmpList (foldKey a) (foldKey b) with
  | lt => simp
  | gt =>
    have : foldKey a ≠ foldKey b := fun h => by
      rw [cmpList_eq_iff.mpr h] at hf; cases hf
    simp [this]
  | eq =>
    have hfe : foldKey a = foldKey b := cmpList_eq_iff.mp hf
    cases hc : cmpList (caseKey a) (caseKey b) <;> simp [hfe, hc]

theorem localeCompare_trans {a b c : String}
    (h1 : localeCompare a b ≤ 0) (h2 : localeCompare b c ≤ 0) : localeCompare a c ≤ 0 := by
  rw [localeCompare_le_iff] at h1 h2 ⊢
  rcases h1 with h1 | ⟨h1e, h1c⟩
  · rcases h2 with h2 | ⟨h2e, h2c⟩
    · exact Or.inl (cmpList_lt_trans h1 h2)
    · exact Or.inl (h2e ▸ h1)
  · rcases h2 with h2 | ⟨h2e, h2c⟩
    · exact Or.inl (h1e ▸ h2)
    · exact Or.inr ⟨h1e.trans h2e, cmpList_ngt_trans h1c h2c⟩

instance : IsTotal Task TaskLE := by
  constructor
  intro a b
  unfold TaskLE
  rcases ha : dueTime a with _ | ta <;> rcases hb : dueTime b with _ | tb <;>
    simp only [taskCmp, ha, hb]
  · have := localeCompare_swap a.title b.title
    omega
  · right; omega
  · left; omega
  · by_cases h : ta = tb
    · subst h
      simp only [ne_eq, not_true_eq_false, if_false]
      have := localeCompare_swap a.title b.title
      omega
    · have h2 : tb ≠ ta := fun hh => h hh.symm
      simp only [ne_eq, h, h2, not_false_eq_true, if_true]
      omega

instance : IsTrans Task TaskLE := by
  constructor
  intro a b c h1 h2
  unfold TaskLE at *
  rcases ha : dueTime a with _ | ta <;> rcases hb : dueTime b with _ | tb <;>
    rcases hc : dueTime c with _ | tc <;>
    simp only [taskCmp, ha, hb, hc] at h1 h2 ⊢
  any_goals omega
  · exact localeCompare_trans h1 h2
  · by_cases hab : ta = tb <;> by_cases hbc : tb = tc
    · subst hab; subst hbc
      simp only [ne_eq, not_true_eq_false, if_false] at h1 h2 ⊢
      exact localeCompare_trans h1 h2
    · subst hab
      simp only [ne_eq, not_true_eq_false, if_false] at h1
      simp only [ne_eq, hbc, not_false_eq_true, if_true] at h2 ⊢
      omega
    · subst hbc
      simp only [ne_eq, hab, not_false_eq_true, if_true] at h1 ⊢
      omega
    · simp only [ne_eq, hab, hbc, not_false_eq_true, if_true] at h1 h2
      have hac : ta ≠ tc := by omega
      simp only [ne_eq, hac, not_false_eq_true, if_true]
      omega

example : jsParseDate "2024-01-01" = some 1704067200000 := by decide
example : jsParseDate "2024-01-01T00:00:00.000Z" = some 1704067200000 := by decide
example : jsParseDate "2024-06-15T09:30:00+02:00" = some 1718436600000 := by decide
example : jsParseDate "2024-02-30" = none := by decide
example : toISOString 1704067200000 = "2024-01-01T00:00:00.000Z" := by decide
example : toISOString 1718436600000 = "2024-06-15T07:30:00.000Z" := by decide

/-! ### Properties of the sort -/

theorem sortTasks_perm (l : List Task) : (sortTasks l).Perm l :=
  List.perm_insertionSort TaskLE l

theorem sortTasks_sortedLE (l : List Task) : (sortTasks l).Sorted TaskLE :=
  List.sorted_insertionSort TaskLE l

theorem sortTasks_eq_of_sorted {l : List Task} (h : l.Sorted TaskLE) : sortTasks l = l :=
  h.insertionSort_eq

theorem localeCompare_le_ciLe {a b : String} (h : localeCompare a b ≤ 0) : ciLe a b := by
  rcases localeCompare_le_iff.mp h with h1 | ⟨h1, _⟩
  · unfold ciLe; rw [h1]; simp
  · unfold ciLe; rw [cmpList_eq_iff.mpr h1]; simp

theorem taskLE_specOrder {a b : Task} (h : TaskLE a b) : specOrder a b := by
  unfold TaskLE at h
  unfold specOrder
  rcases ha : dueTime a with _ | ta <;> rcases hb : dueTime b with _ | tb <;>
    simp only [taskCmp, ha, hb] at h ⊢
  · exact localeCompare_le_ciLe h
  · omega
  · by_cases hab : ta = tb
    · subst hab
      simp only [ne_eq, not_true_eq_false, if_false] at h
      exact Or.inr ⟨rfl, localeCompare_le_ciLe h⟩
    · simp only [ne_eq, hab, not_false_eq_true, if_true] at h
      exact Or.inl (by omega)

/-- C2: the sort applied after every mutation (`sortTasks`) reorders
the list (a permutation) so that tasks with a due date come before
tasks without one, dated tasks ascend by due timestamp with ties
broken by case-insensitive title comparison, and undated tasks are
ordered by case-insensitive title comparison. -/
theorem sortTasks_orders_by_spec (l : List Task) :
    (sortTasks l).Perm l ∧ (sortTasks l).Sorted specOrder :=
  ⟨sortTasks_perm l, (sortTasks_sortedLE l).imp (fun h => taskLE_specOrder h)⟩

/-! ### The two record normalizers (claim C9) -/

/-- C9 as stated is false: on the raw row value
`due_date = "2024-01-01"` the State Owner normalizer keeps the string
unchanged while the List Editor normalizer rewrites it to canonical
ISO form, so the two produced tasks differ in `dueDate`. -/
theorem normalizeTask_mapTaskRow_differ :
    mapTaskRow
        { id := "1", title := "t", description := none,
          due_date := some "2024-01-01", completed := none, priority := none } ≠
      normalizeTask
        { id := "1", title := "t", description := none,
          due_date := some "2024-01-01", completed := none, priority := none } ∧
    (mapTaskRow
        { id := "1", title := "t", description := none,
          due_date := some "2024-01-01", completed := none, priority := none }).dueDate =
      some "2024-01-01T00:00:00.000Z" ∧
    (normalizeTask
        { id := "1", title := "t", description := none,
          due_date := some "2024-01-01", completed := none, priority := none }).dueDate =
      some "2024-01-01" := by
  refine ⟨?_, by decide, rfl⟩
  decide

/-- C9 amended: for every database row the two normalizers agree on
id, title, description, completed and priority; the produced tasks are
equal exactly when canonicalizing the raw due date leaves it
unchanged (in particular whenever it is absent), and in general the
List Editor normalizer canonicalizes `dueDate` to ISO form while the
State Owner normalizer passes the raw value through. -/
theorem normalizeTask_mapTaskRow_agree (row : Row) :
    (mapTaskRow row).id = (normalizeTask row).id ∧
    (mapTaskRow row).title = (normalizeTask row).title ∧
    (mapTaskRow row).description = (normalizeTask row).description ∧
    (mapTaskRow row).completed = (normalizeTask row).completed ∧
    (mapTaskRow row).priority = (normalizeTask row).priority ∧
    (mapTaskRow row = normalizeTask row ↔
      normalizeDueDateValue row.due_date = row.due_date) := by
  refine ⟨rfl, rfl, rfl, rfl, rfl, ?_⟩
  constructor
  · intro h
    have := congrArg Task.dueDate h
    simpa [mapTaskRow, normalizeTask] using this
  · intro h
    unfold mapTaskRow normalizeTask
    rw [h]

/-! ### The State Owner non-list guard (claim C10) -/

/-- C10: when `applyLocalChange` receives a value (or an updater
producing a value) that is not an array, the previous list is kept
unchanged; the embedding types the stored state as a list, so the
stored state is always a list. -/
theorem handleChildTasksChange_non_list_noop (arg : ChildArg) (prev : List Task)
    (h : resolveChild arg prev = .notList) : handleChildTasksChange arg prev = prev := by
  unfold handleChildTasksChange
  rw [h]

theorem handleChildTasksChange_non_list_noop_witness :
    resolveChild (.value .notList) [] = .notList ∧
      handleChildTasksChange (.value .notList) [] = [] :=
  ⟨rfl, handleChildTasksChange_non_list_noop (.value .notList) [] rfl⟩

/-! ### Idempotence of remote update reconciliation (claim C6) -/

theorem set_getElem?_self {α : Type} {l : List α} {i : Nat} {v : α}
    (h : l[i]? = some v) : l.set i v = l := by
  obtain ⟨hlen, hv⟩ := List.getElem?_eq_some_iff.mp h
  apply List.ext_getElem?
  intro j
  rcases eq_or_ne i j with rfl | hne
  · rw [List.getElem?_set_self hlen, h]
  · rw [List.getElem?_set_ne hne]

theorem uniqueIds_of_perm {l l' : List Task} (hp : l.Perm l') (h : UniqueIds l) :
    UniqueIds l' := ((hp.map Task.id).nodup_iff).mp h

/-- After one upsert of `row` into an id-unique list, the result is
id-unique, contains the normalized record, and every id-match in it is
exactly the normalized record. -/
theorem applyUpsert_matchers {l : List Task} (row : Row) (hu : UniqueIds l) :
    UniqueIds (applyUpsert (some row) l) ∧
      normalizeTask row ∈ applyUpsert (some row) l ∧
      ∀ t ∈ applyUpsert (some row) l, t.id = (normalizeTask row).id →
        t = normalizeTask row := by
  set inc := normalizeTask row with hinc
  unfold applyUpsert
  simp only [← hinc]
  cases hfind : l.findIdx? (fun task => task.id = inc.id) with
  | none =>
    have hnone : ∀ x ∈ l, x.id ≠ inc.id := by
      intro x hx
      have := List.findIdx?_eq_none_iff.mp hfind x hx
      simpa using this
    have hperm := sortTasks_perm (l ++ [inc])
    refine ⟨?_, ?_, ?_⟩
    · apply uniqueIds_of_perm hperm.symm
      unfold UniqueIds
      rw [List.map_append]
      rw [List.nodup_append]
      refine ⟨hu, List.nodup_singleton _, ?_⟩
      intro x hx hx2
      simp only [List.map_cons, List.map_nil, List.mem_singleton] at hx2
      obtain ⟨y, hy, rfl⟩ := List.mem_map.mp hx
      exact hnone y hy hx2
    · exact hperm.mem_iff.mpr (by simp)
    · intro t ht htid
      have := hperm.mem_iff.mp ht
      rcases List.mem_append.mp this with h1 | h1
      · exact absurd htid (hnone t h1)
      · simpa using h1
  | some j =>
    obtain ⟨hjlen, hpj, -⟩ := List.findIdx?_eq_some_iff_getElem.mp hfind
    have hjid : l[j].id = inc.id := by simpa using hpj
    have hperm := sortTasks_perm (l.set j inc)
    have hids : (l.set j inc).map Task.id = l.map Task.id := by
      rw [List.map_set]
      apply set_getElem?_self
      rw [List.getElem?_eq_some_iff]
      exact ⟨by simpa using hjlen, by simpa using hjid⟩
    refine ⟨?_, ?_, ?_⟩
    · apply uniqueIds_of_perm hperm.symm
      unfold UniqueIds
      rw [hids]
      exact hu
    · apply hperm.mem_iff.mpr
      rw [List.mem_iff_getElem]
      exact ⟨j, by simpa using hjlen,
        List.getElem_set_self (h := by simpa using hjlen)⟩
    · intro t ht htid
      have ht2 := hperm.mem_iff.mp ht
      rw [List.mem_iff_getElem] at ht2
      obtain ⟨k, hk, hkt⟩ := ht2
      rcases eq_or_ne k j with rfl | hkj
      · rw [List.getElem_set_self] at hkt
        exact hkt.symm
      · rw [List.getElem_set_ne hkj.symm] at hkt
        exfalso
        have hklen : k < l.length := by simpa using hk
        have hk2 : k < (l.map Task.id).length := by simpa using hklen
        have hj2 : j < (l.map Task.id).length := by simpa using hjlen
        have hEq : (l.map Task.id)[k] = (l.map Task.id)[j] := by
          rw [List.getElem_map, List.getElem_map, hkt, htid, hjid]
        have := (hu.getElem_inj_iff).mp hEq
        exact hkj this

/-- Upserting a record into a sorted list that already holds exactly
that record (as its unique id-match) is the identity. -/
theorem applyUpsert_fixpoint {L1 : List Task} {row : Row}
    (hs : L1.Sorted TaskLE) (hmem : normalizeTask row ∈ L1)
    (huniq : ∀ t ∈ L1, t.id = (normalizeTask row).id → t = normalizeTask row) :
    applyUpsert (some row) L1 = L1 := by
  set inc := normalizeTask row with hinc
  have hsome : (L1.findIdx? (fun task => task.id = inc.id)).isSome := by
    rw [List.findIdx?_isSome]
    apply List.any_eq_true.mpr
    exact ⟨inc, hmem, by simp⟩
  obtain ⟨i, hi⟩ := Option.isSome_iff_exists.mp hsome
  unfold applyUpsert
  simp only [← hinc]
  rw [hi]
  obtain ⟨hilen, hpi, -⟩ := List.findIdx?_eq_some_iff_getElem.mp hi
  have : L1[i] = inc := huniq _ (List.getElem_mem hilen) (by simpa using hpi)
  show sortTasks (L1.set i inc) = L1
  rw [set_getElem?_self (by rw [List.getElem?_eq_some_iff]; exact ⟨hilen, this⟩)]
  exact sortTasks_eq_of_sorted hs

theorem applyUpsert_some_sorted (row : Row) (l : List Task) :
    (applyUpsert (some row) l).Sorted TaskLE := by
  show (match l.findIdx? (fun task : Task => task.id = (normalizeTask row).id) with
    | none => sortTasks (l ++ [normalizeTask row])
    | some existingIndex =>
        sortTasks (l.set existingIndex (normalizeTask row))).Sorted TaskLE
  cases l.findIdx? (fun task : Task => task.id = (normalizeTask row).id) <;>
    exact sortTasks_sortedLE _


/-- C6 as stated is false for a list holding two distinct tasks with
the same id: the second application of the same UPDATE event overwrites
the surviving duplicate, so applying the event twice differs from
applying it once. -/
theorem applyRealtimeChange_update_not_idem :
    applyRealtimeChange
        { eventType := "UPDATE", old := none,
          new := some { id := "a", title := "z", description := none,
                        due_date := none, completed := none, priority := none } }
        (applyRealtimeChange
          { eventType := "UPDATE", old := none,
            new := some { id := "a", title := "z", description := none,
                          due_date := none, completed := none, priority := none } }
          [{ id := "a", title := "a", description := "", dueDate := none,
             completed := false, priority := "medium" },
           { id := "a", title := "b", description := "", dueDate := none,
             completed := false, priority := "medium" }]) ≠
      applyRealtimeChange
        { eventType := "UPDATE", old := none,
          new := some { id := "a", title := "z", description := none,
                        due_date := none, completed := none, priority := none } }
        [{ id := "a", title := "a", description := "", dueDate := none,
           completed := false, priority := "medium" },
         { id := "a", title := "b", description := "", dueDate := none,
           completed := false, priority := "medium" }] := by
  decide

/-- C6 amended: for every task list containing at most one task per id
and every remote "updated" event, applying the event twice through the
State Owner reconciliation yields the same list as applying it once. -/
theorem applyRealtimeChange_update_idem (p : Payload) (l : List Task)
    (hev : p.eventType = "UPDATE") (hu : UniqueIds l) :
    applyRealtimeChange p (applyRealtimeChange p l) = applyRealtimeChange p l := by
  have hnotdel : ∀ m, applyRealtimeChange p m = applyUpsert p.new m := by
    intro m
    unfold applyRealtimeChange
    cases p.old with
    | none => rfl
    | some o =>
      show (if p.eventType = "DELETE" ∧ o.id ≠ "" then
          m.filter (fun task : Task => task.id ≠ o.id)
        else applyUpsert p.new m) = applyUpsert p.new m
      rw [if_neg]
      rintro ⟨hc, -⟩
      rw [hev] at hc
      exact absurd hc (by decide)
  rw [hnotdel, hnotdel]
  cases hnew : p.new with
  | none => rfl
  | some row =>
    obtain ⟨hu1, hmem, huniq⟩ := applyUpsert_matchers row hu
    exact applyUpsert_fixpoint (applyUpsert_some_sorted row l) hmem huniq

theorem applyRealtimeChange_update_idem_witness :
    ({ eventType := "UPDATE", old := none,
       new := some { id := "a", title := "z", description := none,
                     due_date := none, completed := none,
                     priority := none } } : Payload).eventType = "UPDATE" ∧
    UniqueIds [{ id := "a", title := "a", description := "", dueDate := none,
                 completed := false, priority := "medium" }] ∧
    applyRealtimeChange
        { eventType := "UPDATE", old := none,
          new := some { id := "a", title := "z", description := none,
                        due_date := none, completed := none, priority := none } }
        (applyRealtimeChange
          { eventType := "UPDATE", old := none,
            new := some { id := "a", title := "z", description := none,
                          due_date := none, completed := none, priority := none } }
          [{ id := "a", title := "a", description := "", dueDate := none,
             completed := false, priority := "medium" }]) =
      applyRealtimeChange
        { eventType := "UPDATE", old := none,
          new := some { id := "a", title := "z", description := none,
                        due_date := none, completed := none, priority := none } }
        [{ id := "a", title := "a", description := "", dueDate := none,
           completed := false, priority := "medium" }] :=
  ⟨rfl, by unfold UniqueIds; decide,
    applyRealtimeChange_update_idem _ _ rfl (by unfold UniqueIds; decide)⟩

/-! ### Fetch failure semantics (claim C7) -/

/-- C7: for every identity, when the initial fetch fails — via a
platform-reported error or a thrown exception — the State Owner
clears the task list, records a retrievable error message, and leaves
the loading flag cleared.  `fetchTasks` is a total function (the
source wraps the call in `try`/`catch`/`finally`), so no exception
propagates to the caller. -/
theorem fetchTasks_failure_clears_and_records (u : String) :
    (∀ msg, fetchTasks (some u) (.err msg) =
      { tasks := [], tasksLoading := false, tasksError := msg }) ∧
    (∀ msgOpt, fetchTasks (some u) (.thrown msgOpt) =
      { tasks := [], tasksLoading := false,
        tasksError := msgOpt.getD "Failed to load tasks" }) :=
  ⟨fun _ => rfl, fun _ => rfl⟩

/-! ### The mutation-in-flight gate (claim C5) -/

/-- C5: while one mutating operation is in flight (`isMutating` set),
invoking any further mutating operation — toggle, delete, create or
edit — is a no-op: the state is unchanged and no persistence call is
issued. -/
theorem mutations_noop_while_in_flight (st : EditorSt) (h : st.isMutating = true)
    (user : Option String) (now : Int) (id taskId editTaskId : String)
    (form : NewTaskForm) (fields : EditFields)
    (o1 o3 o4 : WriteOutcome) (o2 : SimpleOutcome) :
    toggleTask user id o1 st = (st, []) ∧
    handleDeleteTask user taskId o2 st = (st, []) ∧
    handleAddTask now user form o3 st = (st, []) ∧
    saveEditTask now user editTaskId fields o4 st = (st, []) := by
  refine ⟨?_, ?_, ?_, ?_⟩ <;>
    simp [toggleTask, handleDeleteTask, handleAddTask, saveEditTask, h]

theorem mutations_noop_while_in_flight_witness :
    sampleBusySt.isMutating = true ∧
    toggleTask (some "u") "a" .okNone sampleBusySt = (sampleBusySt, []) ∧
    handleDeleteTask (some "u") "a" .ok sampleBusySt = (sampleBusySt, []) ∧
    handleAddTask 0 (some "u") sampleForm .okNone sampleBusySt = (sampleBusySt, []) ∧
    saveEditTask 0 (some "u") "a" sampleFields .okNone sampleBusySt = (sampleBusySt, []) :=
  ⟨rfl, mutations_noop_while_in_flight sampleBusySt rfl (some "u") 0 "a" "a" "a"
    sampleForm sampleFields .okNone .okNone .okNone .ok⟩

/-! ### Rollback on write failure (claim C1) -/

theorem uniqueIds_eq_of_id {l : List Task} (hu : UniqueIds l) {s t : Task}
    (hs : s ∈ l) (ht : t ∈ l) (hid : s.id = t.id) : s = t :=
  List.inj_on_of_nodup_map hu hs ht hid

theorem map_id_of_mem {α : Type} {l : List α} {f : α → α} (h : ∀ x ∈ l, f x = x) :
    l.map f = l := by
  induction l with
  | nil => rfl
  | cons a as ih =>
    rw [List.map_cons, h a (by simp), ih (fun x hx => h x (List.mem_cons_of_mem a hx))]

/-- Optimistically rewriting the id-matches of `target` and then
restoring `target` at those id-matches is the identity on an id-unique
list containing `target`, provided the rewrite preserves ids. -/
theorem rollback_map {l : List Task} {target : Task} {f : Task → Task}
    (hu : UniqueIds l) (hmem : target ∈ l) (hid : ∀ t, (f t).id = t.id) :
    (l.map (fun task => if task.id = target.id then f task else task)).map
      (fun task => if task.id = target.id then target else task) = l := by
  rw [List.map_map]
  apply map_id_of_mem
  intro t ht
  simp only [Function.comp]
  by_cases h : t.id = target.id
  · rw [if_pos h, if_pos (by rw [hid t]; exact h)]
    exact (uniqueIds_eq_of_id hu hmem ht h.symm)
  · rw [if_neg h, if_neg h]

theorem toggleTask_failed_tasks {st : EditorSt} {user : Option String} {id : String}
    {o : WriteOutcome} (hu : UniqueIds st.tasks) (ho : writeFailed o = true) :
    (toggleTask user id o st).1.tasks = st.tasks := by
  cases o with
  | ok row => simp [writeFailed] at ho
  | okNone => simp [writeFailed] at ho
  | err msg =>
    unfold toggleTask
    split
    · rfl
    cases hfind : st.tasks.find? (fun task => task.id = id) with
    | none => cases user <;> rfl
    | some targetTask =>
      cases user with
      | none => rfl
      | some uid =>
        show ((st.tasks.map _).map _ : List Task) = st.tasks
        exact rollback_map hu (List.mem_of_find?_eq_some hfind) (fun t => rfl)
  | thrown msgOpt =>
    unfold toggleTask
    split
    · rfl
    cases hfind : st.tasks.find? (fun task => task.id = id) with
    | none => cases user <;> rfl
    | some targetTask =>
      cases user with
      | none => rfl
      | some uid =>
        show ((st.tasks.map _).map _ : List Task) = st.tasks
        exact rollback_map hu (List.mem_of_find?_eq_some hfind) (fun t => rfl)

theorem saveEditCore_failed_tasks {user : Option String} {editTaskId : String}
    {fields : EditFields} {title nd sp : String} {dueDateIso : Option String}
    {o : WriteOutcome} {st : EditorSt} (hu : UniqueIds st.tasks)
    (ho : writeFailed o = true) :
    (saveEditCore user editTaskId fields title nd sp dueDateIso o st).1.tasks = st.tasks := by
  cases o with
  | ok row => simp [writeFailed] at ho
  | okNone => simp [writeFailed] at ho
  | err msg =>
    unfold saveEditCore
    cases hfind : st.tasks.find? (fun task => task.id = editTaskId) with
    | none => rfl
    | some currentTask =>
      dsimp only
      cases user with
      | none => split <;> split <;> rfl
      | some uid =>
        split <;> split
        · rfl
        · show ((st.tasks.map _).map _ : List Task) = st.tasks
          exact rollback_map hu (List.mem_of_find?_eq_some hfind) (fun t => rfl)
        · rfl
        · show ((st.tasks.map _).map _ : List Task) = st.tasks
          exact rollback_map hu (List.mem_of_find?_eq_some hfind) (fun t => rfl)
  | thrown msgOpt =>
    unfold saveEditCore
    cases hfind : st.tasks.find? (fun task => task.id = editTaskId) with
    | none => rfl
    | some currentTask =>
      dsimp only
      cases user with
      | none => split <;> split <;> rfl
      | some uid =>
        split <;> split
        · rfl
        · show ((st.tasks.map _).map _ : List Task) = st.tasks
          exact rollback_map hu (List.mem_of_find?_eq_some hfind) (fun t => rfl)
        · rfl
        · show ((st.tasks.map _).map _ : List Task) = st.tasks
          exact rollback_map hu (List.mem_of_find?_eq_some hfind) (fun t => rfl)

theorem saveEditTask_failed_tasks {now : Int} {user : Option String}
    {editTaskId : String} {fields : EditFields} {o : WriteOutcome} {st : EditorSt}
    (hu : UniqueIds st.tasks) (ho : writeFailed o = true) :
    (saveEditTask now user editTaskId fields o st).1.tasks = st.tasks := by
  unfold saveEditTask
  dsimp only
  split
  · rfl
  split
  · rfl
  split
  · rfl
  by_cases hdate : fields.date = ""
  · simp only [editDueDateIso, if_pos hdate]
    exact saveEditCore_failed_tasks hu ho
  · simp only [if_neg hdate]
    split
    · rename_i stopped heq
      split at heq
      · exact Option.noConfusion heq
      split at heq
      · exact Option.noConfusion heq
      split at heq
      · cases heq
        rfl
      split at heq
      · cases heq
        rfl
      · exact Option.noConfusion heq
    · exact saveEditCore_failed_tasks hu ho

theorem handleDeleteTask_failed_tasks {user : Option String} {taskId : String}
    {o : SimpleOutcome} {st : EditorSt} (ho : simpleFailed o = true) :
    (handleDeleteTask user taskId o st).1.tasks = st.tasks := by
  cases o with
  | ok => simp [simpleFailed] at ho
  | err msg =>
    unfold handleDeleteTask
    split
    · rfl
    cases user <;> rfl
  | thrown msgOpt =>
    unfold handleDeleteTask
    split
    · rfl
    cases user <;> rfl

theorem handleAddTask_failed_tasks {now : Int} {user : Option String}
    {form : NewTaskForm} {o : WriteOutcome} {st : EditorSt}
    (ho : writeFailed o = true) :
    (handleAddTask now user form o st).1.tasks = st.tasks := by
  cases o with
  | ok row => simp [writeFailed] at ho
  | okNone => simp [writeFailed] at ho
  | err msg =>
    unfold handleAddTask
    dsimp only
    split
    · rfl
    split
    · rfl
    split
    · rfl
    split
    · rfl
    cases user with
    | none => rfl
    | some uid =>
      dsimp only
      split
      · rename_i stopped heq
        split at heq
        · exact Option.noConfusion heq
        split at heq
        · exact Option.noConfusion heq
        split at heq
        · cases heq
          rfl
        split at heq
        · cases heq
          rfl
        split at heq
        · cases heq
          rfl
        · exact Option.noConfusion heq
      · rfl
  | thrown msgOpt =>
    unfold handleAddTask
    dsimp only
    split
    · rfl
    split
    · rfl
    split
    · rfl
    split
    · rfl
    cases user with
    | none => rfl
    | some uid =>
      dsimp only
      split
      · rename_i stopped heq
        split at heq
        · exact Option.noConfusion heq
        split at heq
        · exact Option.noConfusion heq
        split at heq
        · cases heq
          rfl
        split at heq
        · cases heq
          rfl
        split at heq
        · cases heq
          rfl
        · exact Option.noConfusion heq
      · rfl

/-- Appending the freshly-persisted ids to the seen-set and then
filtering them back out restores the original seen-set, because only
previously-unseen ids were appended. -/
theorem seen_revert {seen ids : List String}
    (hids : ∀ a ∈ ids, seen.contains a = false) :
    (seen ++ ids).filter (fun i => !ids.contains i) = seen := by
  rw [List.filter_append]
  have hB : ids.filter (fun i => !ids.contains i) = [] := by
    apply List.filter_eq_nil_iff.mpr
    intro a ha hcontra
    rw [Bool.not_eq_true'] at hcontra
    have h1 : ids.contains a = true := List.elem_iff.mpr ha
    rw [hcontra] at h1
    exact Bool.false_ne_true h1
  have hA : seen.filter (fun i => !ids.contains i) = seen := by
    apply List.filter_eq_self.mpr
    intro a ha
    rw [Bool.not_eq_true']
    cases hc : ids.contains a with
    | false => rfl
    | true =>
      exfalso
      have hmem : a ∈ ids := List.elem_iff.mp hc
      have h1 : seen.contains a = true := List.elem_iff.mpr ha
      rw [hids a hmem] at h1
      exact Bool.false_ne_true h1
  rw [hA, hB, List.append_nil]

/-- On a failed bulk persistence the auto-high effect keeps the
escalated in-memory list (identical to the success case) and restores
the seen-set to its pre-effect value. -/
theorem autoHighEffect_err_no_rollback (now : Int) (uid : Option String)
    (msg : String) (st : EditorSt) :
    (autoHighEffect now uid (.err msg) st).1.tasks =
      (autoHighEffect now uid .ok st).1.tasks ∧
    (autoHighEffect now uid (.err msg) st).1.seenAutoHigh = st.seenAutoHigh := by
  unfold autoHighEffect
  dsimp only
  split
  · exact ⟨rfl, rfl⟩
  split
  · exact ⟨rfl, rfl⟩
  cases uid with
  | none => exact ⟨rfl, rfl⟩
  | some u =>
    dsimp only
    split
    · exact ⟨rfl, rfl⟩
    · refine ⟨rfl, ?_⟩
      apply seen_revert
      intro a ha
      have := (List.mem_filter.mp ha).2
      rwa [Bool.not_eq_true'] at this


/-- The same non-rollback behaviour for the auto-medium effect. -/
theorem autoMediumEffect_err_no_rollback (now : Int) (uid : Option String)
    (msg : String) (st : EditorSt) :
    (autoMediumEffect now uid (.err msg) st).1.tasks =
      (autoMediumEffect now uid .ok st).1.tasks ∧
    (autoMediumEffect now uid (.err msg) st).1.seenAutoMedium = st.seenAutoMedium := by
  unfold autoMediumEffect
  dsimp only
  split
  · exact ⟨rfl, rfl⟩
  split
  · exact ⟨rfl, rfl⟩
  cases uid with
  | none => exact ⟨rfl, rfl⟩
  | some u =>
    dsimp only
    split
    · exact ⟨rfl, rfl⟩
    · refine ⟨rfl, ?_⟩
      apply seen_revert
      intro a ha
      have := (List.mem_filter.mp ha).2
      rwa [Bool.not_eq_true'] at this

/-- C1 as stated is false at two concrete inputs.  First, when the
auto-priority escalation of a task due now fails to persist, the
in-memory list keeps the escalated priority instead of reverting.
Second, on a list holding two distinct tasks under one id, a failed
toggle restores the looked-up snapshot at every id-match, so the list
differs from the pre-operation list. -/
theorem failed_write_rollback_counterexample :
    (autoHighEffect 1704067200000 (some "u") (.err "boom")
        { sampleSt with
          tasks := [{ id := "a", title := "a", description := "",
                      dueDate := some "2024-01-01T00:00:00.000Z",
                      completed := false, priority := "medium" }] }).1.tasks ≠
      [{ id := "a", title := "a", description := "",
         dueDate := some "2024-01-01T00:00:00.000Z",
         completed := false, priority := "medium" }] ∧
    (toggleTask (some "u") "a" (.err "boom")
        { sampleSt with
          tasks := [{ id := "a", title := "a", description := "", dueDate := none,
                      completed := false, priority := "medium" },
                    { id := "a", title := "b", description := "", dueDate := none,
                      completed := false, priority := "medium" }] }).1.tasks ≠
      [{ id := "a", title := "a", description := "", dueDate := none,
         completed := false, priority := "medium" },
       { id := "a", title := "b", description := "", dueDate := none,
         completed := false, priority := "medium" }] := by
  constructor
  · decide
  · decide

/-- C1 amended: on a task list with at most one task per id, each
user-driven mutating operation (toggleComplete, edit, delete, create)
leaves the in-memory task list deep-equal to the pre-operation list
when its persistence write fails; the background auto-priority
escalation effects, however, keep the escalated in-memory priorities
on a failed write (the list equals the success-case list) and restore
only their seen-sets. -/
theorem failed_write_rollback (st : EditorSt) (hu : UniqueIds st.tasks)
    (user : Option String) (now : Int) (id taskId editTaskId : String)
    (form : NewTaskForm) (fields : EditFields) :
    (∀ o, writeFailed o = true → (toggleTask user id o st).1.tasks = st.tasks) ∧
    (∀ o, writeFailed o = true →
      (saveEditTask now user editTaskId fields o st).1.tasks = st.tasks) ∧
    (∀ o, simpleFailed o = true → (handleDeleteTask user taskId o st).1.tasks = st.tasks) ∧
    (∀ o, writeFailed o = true → (handleAddTask now user form o st).1.tasks = st.tasks) ∧
    (∀ msg, (autoHighEffect now user (.err msg) st).1.tasks =
        (autoHighEffect now user .ok st).1.tasks ∧
      (autoHighEffect now user (.err msg) st).1.seenAutoHigh = st.seenAutoHigh) ∧
    (∀ msg, (autoMediumEffect now user (.err msg) st).1.tasks =
        (autoMediumEffect now user .ok st).1.tasks ∧
      (autoMediumEffect now user (.err msg) st).1.seenAutoMedium = st.seenAutoMedium) :=
  ⟨fun _ ho => toggleTask_failed_tasks hu ho,
   fun _ ho => saveEditTask_failed_tasks hu ho,
   fun _ ho => handleDeleteTask_failed_tasks ho,
   fun _ ho => handleAddTask_failed_tasks ho,
   fun msg => autoHighEffect_err_no_rollback now user msg st,
   fun msg => autoMediumEffect_err_no_rollback now user msg st⟩

theorem failed_write_rollback_witness :
    UniqueIds sampleSt.tasks ∧
    writeFailed (.err "x") = true ∧
    (toggleTask (some "u") "a" (.err "x") sampleSt).1.tasks = sampleSt.tasks :=
  ⟨by unfold UniqueIds sampleSt; decide, rfl,
    (failed_write_rollback sampleSt (by unfold UniqueIds sampleSt; decide)
      (some "u") 0 "a" "a" "a" sampleForm sampleFields).1 (.err "x") rfl⟩

/-! ### Auto-priority escalation (claim C3) -/

/-- Whatever the identity and outcome, the auto-high effect rewrites
the list by elevating exactly the id-matches of the qualifying tasks. -/
theorem autoHighEffect_tasks_eq (now : Int) (uid : Option String) (o : BulkOutcome)
    (st : EditorSt) :
    (autoHighEffect now uid o st).1.tasks =
      st.tasks.map (fun t =>
        if ((st.tasks.filter (autoHighPred now)).map Task.id).contains t.id
        then { t with priority := "high" } else t) := by
  unfold autoHighEffect
  dsimp only
  split
  · rename_i h
    rw [List.isEmpty_iff.mp h]
    rfl
  split
  · rename_i h2
    rw [List.isEmpty_iff.mp h2]
    exact (map_id_of_mem (fun x hx => rfl)).symm
  cases uid with
  | none => rfl
  | some u =>
    dsimp only
    split
    · rfl
    cases o <;> rfl

/-- The medium analogue of `autoHighEffect_tasks_eq`. -/
theorem autoMediumEffect_tasks_eq (now : Int) (uid : Option String) (o : BulkOutcome)
    (st : EditorSt) :
    (autoMediumEffect now uid o st).1.tasks =
      st.tasks.map (fun t =>
        if ((st.tasks.filter (autoMediumPred now)).map Task.id).contains t.id
        then { t with priority := "medium" } else t) := by
  unfold autoMediumEffect
  dsimp only
  split
  · rename_i h
    rw [List.isEmpty_iff.mp h]
    rfl
  split
  · rename_i h2
    rw [List.isEmpty_iff.mp h2]
    exact (map_id_of_mem (fun x hx => rfl)).symm
  cases uid with
  | none => rfl
  | some u =>
    dsimp only
    split
    · rfl
    cases o <;> rfl

/-- A qualifying task is elevated to high in the effect result. -/
theorem autoHighEffect_elevates {st : EditorSt} {now : Int} (uid : Option String)
    (o : BulkOutcome) {t : Task} (ht : t ∈ st.tasks) (hq : autoHighPred now t = true) :
    { t with priority := "high" } ∈ (autoHighEffect now uid o st).1.tasks := by
  rw [autoHighEffect_tasks_eq]
  have hc : ((st.tasks.filter (autoHighPred now)).map Task.id).contains t.id = true :=
    List.elem_iff.mpr (List.mem_map_of_mem Task.id (List.mem_filter.mpr ⟨ht, hq⟩))
  refine List.mem_map.mpr ⟨t, ht, ?_⟩
  simp only [if_pos hc]

/-- A qualifying task is promoted to medium in the effect result. -/
theorem autoMediumEffect_promotes {st : EditorSt} {now : Int} (uid : Option String)
    (o : BulkOutcome) {t : Task} (ht : t ∈ st.tasks) (hq : autoMediumPred now t = true) :
    { t with priority := "medium" } ∈ (autoMediumEffect now uid o st).1.tasks := by
  rw [autoMediumEffect_tasks_eq]
  have hc : ((st.tasks.filter (autoMediumPred now)).map Task.id).contains t.id = true :=
    List.elem_iff.mpr (List.mem_map_of_mem Task.id (List.mem_filter.mpr ⟨ht, hq⟩))
  refine List.mem_map.mpr ⟨t, ht, ?_⟩
  simp only [if_pos hc]

/-- Once no task qualifies, the effect issues no persistence call. -/
theorem autoHighEffect_no_requalify (now : Int) (st1 : EditorSt)
    (hfilter : st1.tasks.filter (autoHighPred now) = []) (uid : Option String)
    (o : BulkOutcome) : (autoHighEffect now uid o st1).2 = [] := by
  unfold autoHighEffect
  dsimp only
  split
  · rfl
  rw [hfilter]
  rfl

theorem autoMediumEffect_no_requalify (now : Int) (st1 : EditorSt)
    (hfilter : st1.tasks.filter (autoMediumPred now) = []) (uid : Option String)
    (o : BulkOutcome) : (autoMediumEffect now uid o st1).2 = [] := by
  unfold autoMediumEffect
  dsimp only
  split
  · rfl
  rw [hfilter]
  rfl

/-- Running the auto-high effect again right after a run issues no
persistence call at all: every previously qualifying task now carries
priority high, and no other task started qualifying. -/
theorem autoHighEffect_twice_no_calls (now : Int) (uid : Option String)
    (o1 o2 : BulkOutcome) (st : EditorSt) :
    (autoHighEffect now uid o2 ((autoHighEffect now uid o1 st).1)).2 = [] := by
  apply autoHighEffect_no_requalify
  rw [autoHighEffect_tasks_eq]
  apply List.filter_eq_nil_iff.mpr
  intro x hx hpred
  obtain ⟨t, ht, rfl⟩ := List.mem_map.mp hx
  by_cases hc : ((st.tasks.filter (autoHighPred now)).map Task.id).contains t.id = true
  · rw [if_pos hc] at hpred
    simp only [autoHighPred, Bool.and_eq_true, decide_eq_true_eq] at hpred
    exact hpred.1.2 rfl
  · rw [if_neg hc] at hpred
    apply hc
    exact List.elem_iff.mpr (List.mem_map_of_mem Task.id (List.mem_filter.mpr ⟨ht, hpred⟩))

theorem autoMediumEffect_twice_no_calls (now : Int) (uid : Option String)
    (o1 o2 : BulkOutcome) (st : EditorSt) :
    (autoMediumEffect now uid o2 ((autoMediumEffect now uid o1 st).1)).2 = [] := by
  apply autoMediumEffect_no_requalify
  rw [autoMediumEffect_tasks_eq]
  apply List.filter_eq_nil_iff.mpr
  intro x hx hpred
  obtain ⟨t, ht, rfl⟩ := List.mem_map.mp hx
  by_cases hc : ((st.tasks.filter (autoMediumPred now)).map Task.id).contains t.id = true
  · rw [if_pos hc] at hpred
    simp only [autoMediumPred, Bool.and_eq_true, decide_eq_true_eq] at hpred
    exact absurd hpred.1 (by decide)
  · rw [if_neg hc] at hpred
    apply hc
    exact List.elem_iff.mpr (List.mem_map_of_mem Task.id (List.mem_filter.mpr ⟨ht, hpred⟩))

/-- A qualifying task whose id is not yet in the seen-set is part of
the single bulk update the effect issues, and that call carries each
id at most once. -/
theorem autoHighEffect_issues_once (st : EditorSt) (hu : UniqueIds st.tasks)
    (now : Int) (uid : String) {t : Task} (ht : t ∈ st.tasks)
    (hq : autoHighPred now t = true)
    (hseen : st.seenAutoHigh.contains t.id = false) :
    ∃ ids, (autoHighEffect now (some uid) .ok st).2 =
        [.updatePriorityBulk ids uid "high"] ∧ t.id ∈ ids ∧ ids.Nodup := by
  have hne : st.tasks.isEmpty = false :=
    List.isEmpty_eq_false.mpr (List.ne_nil_of_mem ht)
  have htf : t ∈ st.tasks.filter (autoHighPred now) := List.mem_filter.mpr ⟨ht, hq⟩
  have hne2 : (st.tasks.filter (autoHighPred now)).isEmpty = false :=
    List.isEmpty_eq_false.mpr (List.ne_nil_of_mem htf)
  have htid : t.id ∈ (st.tasks.filter (autoHighPred now)).map Task.id :=
    List.mem_map_of_mem Task.id htf
  have hpersist : t.id ∈ ((st.tasks.filter (autoHighPred now)).map Task.id).filter
      (fun i => !st.seenAutoHigh.contains i) :=
    List.mem_filter.mpr ⟨htid, by rw [hseen]; rfl⟩
  have hne3 : (((st.tasks.filter (autoHighPred now)).map Task.id).filter
      (fun i => !st.seenAutoHigh.contains i)).isEmpty = false :=
    List.isEmpty_eq_false.mpr (List.ne_nil_of_mem hpersist)
  have hnodup : (((st.tasks.filter (autoHighPred now)).map Task.id).filter
      (fun i => !st.seenAutoHigh.contains i)).Nodup := by
    apply List.Nodup.filter
    exact ((List.filter_sublist st.tasks).map Task.id).nodup hu
  refine ⟨_, ?_, hpersist, hnodup⟩
  unfold autoHighEffect
  dsimp only
  rw [if_neg (fun h => Bool.false_ne_true (hne ▸ h)),
    if_neg (fun h => Bool.false_ne_true (hne2 ▸ h)),
    if_neg (fun h => Bool.false_ne_true (hne3 ▸ h))]

/-- The medium analogue of `autoHighEffect_issues_once`. -/
theorem autoMediumEffect_issues_once (st : EditorSt) (hu : UniqueIds st.tasks)
    (now : Int) (uid : String) {t : Task} (ht : t ∈ st.tasks)
    (hq : autoMediumPred now t = true)
    (hseen : st.seenAutoMedium.contains t.id = false) :
    ∃ ids, (autoMediumEffect now (some uid) .ok st).2 =
        [.updatePriorityBulk ids uid "medium"] ∧ t.id ∈ ids ∧ ids.Nodup := by
  have hne : st.tasks.isEmpty = false :=
    List.isEmpty_eq_false.mpr (List.ne_nil_of_mem ht)
  have htf : t ∈ st.tasks.filter (autoMediumPred now) := List.mem_filter.mpr ⟨ht, hq⟩
  have hne2 : (st.tasks.filter (autoMediumPred now)).isEmpty = false :=
    List.isEmpty_eq_false.mpr (List.ne_nil_of_mem htf)
  have htid : t.id ∈ (st.tasks.filter (autoMediumPred now)).map Task.id :=
    List.mem_map_of_mem Task.id htf
  have hpersist : t.id ∈ ((st.tasks.filter (autoMediumPred now)).map Task.id).filter
      (fun i => !st.seenAutoMedium.contains i) :=
    List.mem_filter.mpr ⟨htid, by rw [hseen]; rfl⟩
  have hne3 : (((st.tasks.filter (autoMediumPred now)).map Task.id).filter
      (fun i => !st.seenAutoMedium.contains i)).isEmpty = false :=
    List.isEmpty_eq_false.mpr (List.ne_nil_of_mem hpersist)
  have hnodup : (((st.tasks.filter (autoMediumPred now)).map Task.id).filter
      (fun i => !st.seenAutoMedium.contains i)).Nodup := by
    apply List.Nodup.filter
    exact ((List.filter_sublist st.tasks).map Task.id).nodup hu
  refine ⟨_, ?_, hpersist, hnodup⟩
  unfold autoMediumEffect
  dsimp only
  rw [if_neg (fun h => Bool.false_ne_true (hne ▸ h)),
    if_neg (fun h => Bool.false_ne_true (hne2 ▸ h)),
    if_neg (fun h => Bool.false_ne_true (hne3 ▸ h))]

/-- The qualifying conditions of the auto-high filter, spelled out. -/
theorem autoHighPred_iff {now : Int} {t : Task} :
    autoHighPred now t = true ↔
      ((t.completed = false ∧ t.priority ≠ "high") ∧
        shouldAutoElevatePriority t.dueDate now = true) := by
  simp [autoHighPred, Bool.and_eq_true, decide_eq_true_eq, Bool.not_eq_true']

/-- The qualifying conditions of the auto-medium filter, spelled out. -/
theorem autoMediumPred_iff {now : Int} {t : Task} :
    autoMediumPred now t = true ↔
      (t.priority = "low" ∧ shouldAutoPromoteToMedium t.dueDate now = true) := by
  simp [autoMediumPred, Bool.and_eq_true, decide_eq_true_eq]

/-- C3: for every task on an id-unique list, the periodic check sets
the priority of each active, not-already-high task due within one day
(or past) to "high", and of each low-priority task due in more than
one and at most two days to "medium"; the corresponding bulk update is
issued only for ids not yet in the seen-set, carries each id at most
once, is issued at least once for a qualifying unseen id, and running
the check again issues nothing; the seen-sets are cleared when the
identity changes. -/
theorem auto_priority_escalation (st : EditorSt) (hu : UniqueIds st.tasks)
    (now : Int) (uid : String) :
    (∀ t ∈ st.tasks, t.completed = false → t.priority ≠ "high" →
      shouldAutoElevatePriority t.dueDate now = true →
      ∀ o, { t with priority := "high" } ∈ (autoHighEffect now (some uid) o st).1.tasks) ∧
    (∀ t ∈ st.tasks, t.priority = "low" →
      shouldAutoPromoteToMedium t.dueDate now = true →
      ∀ o, { t with priority := "medium" } ∈ (autoMediumEffect now (some uid) o st).1.tasks) ∧
    (∀ t ∈ st.tasks, t.completed = false → t.priority ≠ "high" →
      shouldAutoElevatePriority t.dueDate now = true →
      st.seenAutoHigh.contains t.id = false →
      ∃ ids, (autoHighEffect now (some uid) .ok st).2 =
        [.updatePriorityBulk ids uid "high"] ∧ t.id ∈ ids ∧ ids.Nodup) ∧
    (∀ t ∈ st.tasks, t.priority = "low" →
      shouldAutoPromoteToMedium t.dueDate now = true →
      st.seenAutoMedium.contains t.id = false →
      ∃ ids, (autoMediumEffect now (some uid) .ok st).2 =
        [.updatePriorityBulk ids uid "medium"] ∧ t.id ∈ ids ∧ ids.Nodup) ∧
    (∀ o1 o2,
      (autoHighEffect now (some uid) o2 ((autoHighEffect now (some uid) o1 st).1)).2 = []) ∧
    (∀ o1 o2,
      (autoMediumEffect now (some uid) o2 ((autoMediumEffect now (some uid) o1 st).1)).2 = []) ∧
    (clearAutoSeenOnIdentityChange st).seenAutoHigh = [] ∧
    (clearAutoSeenOnIdentityChange st).seenAutoMedium = [] := by
  refine ⟨?_, ?_, ?_, ?_, ?_, ?_, rfl, rfl⟩
  · intro t ht h1 h2 h3 o
    exact autoHighEffect_elevates (some uid) o ht (autoHighPred_iff.mpr ⟨⟨h1, h2⟩, h3⟩)
  · intro t ht h1 h2 o
    exact autoMediumEffect_promotes (some uid) o ht (autoMediumPred_iff.mpr ⟨h1, h2⟩)
  · intro t ht h1 h2 h3 h4
    exact autoHighEffect_issues_once st hu now uid ht
      (autoHighPred_iff.mpr ⟨⟨h1, h2⟩, h3⟩) h4
  · intro t ht h1 h2 h3
    exact autoMediumEffect_issues_once st hu now uid ht
      (autoMediumPred_iff.mpr ⟨h1, h2⟩) h3
  · intro o1 o2
    exact autoHighEffect_twice_no_calls now (some uid) o1 o2 st
  · intro o1 o2
    exact autoMediumEffect_twice_no_calls now (some uid) o1 o2 st

theorem auto_priority_escalation_witness :
    UniqueIds ({ sampleSt with
      tasks := [{ id := "a", title := "a", description := "",
                  dueDate := some "2024-01-01T12:00:00.000Z",
                  completed := false, priority := "medium" }] } : EditorSt).tasks ∧
    ({ id := "a", title := "a", description := "",
       dueDate := some "2024-01-01T12:00:00.000Z",
       completed := false, priority := "high" } : Task) ∈
      (autoHighEffect 1704067200000 (some "u") .ok
        { sampleSt with
          tasks := [{ id := "a", title := "a", description := "",
                      dueDate := some "2024-01-01T12:00:00.000Z",
                      completed := false, priority := "medium" }] }).1.tasks :=
  ⟨by unfold UniqueIds; decide,
    (auto_priority_escalation _ (by unfold UniqueIds; decide) 1704067200000 "u").1
      { id := "a", title := "a", description := "",
        dueDate := some "2024-01-01T12:00:00.000Z",
        completed := false, priority := "medium" }
      (by decide) rfl (by decide) (by decide) .ok⟩

/-! ### The auto-reopen business rule (claim C4) -/

/-- Every update `saveEditCore` issues while the edit extends the due
date carries `completed = false`, whatever the form's status field
says. -/
theorem saveEditCore_call_shape (user : Option String) (editTaskId : String)
    (fields : EditFields) (title nd sp : String) (dueDateIso : Option String)
    (o : WriteOutcome) (st : EditorSt) (ct : Task)
    (hfind : st.tasks.find? (fun task => task.id = editTaskId) = some ct)
    (hext : didExtendDueDate ct.dueDate dueDateIso = true) :
    ∀ c ∈ (saveEditCore user editTaskId fields title nd sp dueDateIso o st).2,
      ∃ uid, c = NetCall.updateTask editTaskId uid title nd dueDateIso false sp := by
  unfold saveEditCore
  rw [hfind]
  dsimp only
  split
  case isTrue =>
    split
    · intro c hc
      exact absurd hc (List.not_mem_nil c)
    cases user with
    | none =>
      intro c hc
      exact absurd hc (List.not_mem_nil c)
    | some uid =>
      cases o <;>
        exact fun c hc => ⟨uid, List.mem_singleton.mp hc⟩
  case isFalse =>
    rename_i hcompl
    have hnc : decide (fields.status = "completed") = false :=
      decide_eq_false (fun h => hcompl ⟨h, hext⟩)
    rw [hnc]
    split
    · intro c hc
      exact absurd hc (List.not_mem_nil c)
    cases user with
    | none =>
      intro c hc
      exact absurd hc (List.not_mem_nil c)
    | some uid =>
      cases o <;>
        exact fun c hc => ⟨uid, List.mem_singleton.mp hc⟩

/-- C4: for every edit of a task that was completed, if the edit
extends the due date into the future relative to the previous due
date, the resulting task is not completed: every update the edit
operation issues carries `completed = false` (and so do the
optimistically applied value and the echoed row it persists). -/
theorem saveEditTask_auto_reopens (now : Int) (user : Option String)
    (editTaskId : String) (fields : EditFields) (o : WriteOutcome) (st : EditorSt)
    (ct : Task)
    (hfind : st.tasks.find? (fun task => task.id = editTaskId) = some ct)
    (_hcomp : ct.completed = true)
    (hext : didExtendDueDate ct.dueDate (editDueDateIso fields) = true) :
    ∀ c ∈ (saveEditTask now user editTaskId fields o st).2,
      ∃ uid, c = NetCall.updateTask editTaskId uid (jsTrim fields.title)
        (jsTrim fields.description) (editDueDateIso fields) false
        (if fields.priority = "" then "medium" else fields.priority) := by
  unfold saveEditTask
  dsimp only
  split
  · intro c hc
    exact absurd hc (List.not_mem_nil c)
  split
  · intro c hc
    exact absurd hc (List.not_mem_nil c)
  split
  · intro c hc
    exact absurd hc (List.not_mem_nil c)
  by_cases hdate : fields.date = ""
  · exfalso
    rw [editDueDateIso, if_pos hdate] at hext
    cases hdue : ct.dueDate <;> rw [hdue] at hext <;> exact Bool.false_ne_true hext
  · simp only [if_neg hdate]
    split
    · intro c hc
      exact absurd hc (List.not_mem_nil c)
    · exact saveEditCore_call_shape user editTaskId fields (jsTrim fields.title)
        (jsTrim fields.description) _ (editDueDateIso fields) o _ ct hfind hext

theorem saveEditTask_auto_reopens_witness :
    reopenSt.tasks.find? (fun task => task.id = "a") = some reopenTask ∧
    reopenTask.completed = true ∧
    didExtendDueDate reopenTask.dueDate (editDueDateIso reopenFields) = true ∧
    ∀ c ∈ (saveEditTask 1704067200000 (some "u") "a" reopenFields .okNone reopenSt).2,
      ∃ uid, c = NetCall.updateTask "a" uid (jsTrim reopenFields.title)
        (jsTrim reopenFields.description) (editDueDateIso reopenFields) false
        (if reopenFields.priority = "" then "medium" else reopenFields.priority) :=
  ⟨by decide, rfl, by decide,
    saveEditTask_auto_reopens 1704067200000 (some "u") "a" reopenFields .okNone
      reopenSt reopenTask (by decide) rfl (by decide)⟩

/-! ### The at-most-one-task-per-id invariant (claim C8) -/

theorem uniqueIds_map_total {l : List Task} {f : Task → Task}
    (hf : ∀ t, (f t).id = t.id) (hu : UniqueIds l) : UniqueIds (l.map f) := by
  unfold UniqueIds at *
  rw [List.map_map]
  have heq : l.map (Task.id ∘ f) = l.map Task.id :=
    List.map_congr_left (fun a _ => hf a)
  rw [heq]
  exact hu

theorem uniqueIds_filter {l : List Task} (p : Task → Bool) (hu : UniqueIds l) :
    UniqueIds (l.filter p) :=
  ((List.filter_sublist l).map Task.id).nodup hu

theorem toggleTask_uniqueIds {st : EditorSt} {user : Option String} {id : String}
    {o : WriteOutcome} (hu : UniqueIds st.tasks) :
    UniqueIds (toggleTask user id o st).1.tasks := by
  unfold toggleTask
  split
  · exact hu
  cases hfind : st.tasks.find? (fun task => task.id = id) with
  | none => cases user <;> exact hu
  | some targetTask =>
    cases user with
    | none => exact hu
    | some uid =>
      have hflip : UniqueIds (st.tasks.map (fun task =>
          if task.id = targetTask.id then { task with completed := !targetTask.completed }
          else task)) := by
        apply uniqueIds_map_total (fun t => ?_) hu
        by_cases h : t.id = targetTask.id
        · rw [if_pos h]
        · rw [if_neg h]
      cases o with
      | ok row =>
        show UniqueIds ((st.tasks.map _).map _)
        apply uniqueIds_map_total (fun t => ?_) hflip
        by_cases h : t.id = row.id
        · rw [if_pos h]
          exact h.symm
        · rw [if_neg h]
      | okNone => exact hflip
      | err msg =>
        show UniqueIds ((st.tasks.map _).map _)
        apply uniqueIds_map_total (fun t => ?_) hflip
        by_cases h : t.id = targetTask.id
        · rw [if_pos h]
          exact h.symm
        · rw [if_neg h]
      | thrown msgOpt =>
        show UniqueIds ((st.tasks.map _).map _)
        apply uniqueIds_map_total (fun t => ?_) hflip
        by_cases h : t.id = targetTask.id
        · rw [if_pos h]
          exact h.symm
        · rw [if_neg h]

theorem saveEditCore_uniqueIds {user : Option String} {editTaskId : String}
    {fields : EditFields} {title nd sp : String} {dueDateIso : Option String}
    {o : WriteOutcome} {st : EditorSt} (hu : UniqueIds st.tasks) :
    UniqueIds (saveEditCore user editTaskId fields title nd sp dueDateIso o st).1.tasks := by
  unfold saveEditCore
  cases hfind : st.tasks.find? (fun task => task.id = editTaskId) with
  | none => exact hu
  | some currentTask =>
    dsimp only
    have hmerge : ∀ (c : Bool), UniqueIds (st.tasks.map (fun task =>
        if task.id = currentTask.id then
          { task with
              title := title
              description := nd
              dueDate := dueDateIso
              completed := c
              priority := sp }
        else task)) := by
      intro c
      apply uniqueIds_map_total (fun t => ?_) hu
      by_cases h : t.id = currentTask.id
      · rw [if_pos h]
      · rw [if_neg h]
    have hrestore : ∀ (l : List Task), UniqueIds l → UniqueIds (l.map (fun task =>
        if task.id = currentTask.id then currentTask else task)) := by
      intro l hl
      apply uniqueIds_map_total (fun t => ?_) hl
      by_cases h : t.id = currentTask.id
      · rw [if_pos h]
        exact h.symm
      · rw [if_neg h]
    have hecho : ∀ (row : Row) (l : List Task), UniqueIds l → UniqueIds (l.map (fun task =>
        if task.id = row.id then mapTaskRow row else task)) := by
      intro row l hl
      apply uniqueIds_map_total (fun t => ?_) hl
      by_cases h : t.id = row.id
      · rw [if_pos h]
        exact h.symm
      · rw [if_neg h]
    cases o with
    | ok row =>
      split <;> split
      · exact hu
      · cases user with
        | none => exact hu
        | some uid => exact hecho row _ (hmerge false)
      · exact hu
      · cases user with
        | none => exact hu
        | some uid => exact hecho row _ (hmerge _)
    | okNone =>
      split <;> split
      · exact hu
      · cases user with
        | none => exact hu
        | some uid => exact hmerge false
      · exact hu
      · cases user with
        | none => exact hu
        | some uid => exact hmerge _
    | err msg =>
      split <;> split
      · exact hu
      · cases user with
        | none => exact hu
        | some uid => exact hrestore _ (hmerge false)
      · exact hu
      · cases user with
        | none => exact hu
        | some uid => exact hrestore _ (hmerge _)
    | thrown msgOpt =>
      split <;> split
      · exact hu
      · cases user with
        | none => exact hu
        | some uid => exact hrestore _ (hmerge false)
      · exact hu
      · cases user with
        | none => exact hu
        | some uid => exact hrestore _ (hmerge _)

theorem saveEditTask_uniqueIds {now : Int} {user : Option String}
    {editTaskId : String} {fields : EditFields} {o : WriteOutcome} {st : EditorSt}
    (hu : UniqueIds st.tasks) :
    UniqueIds (saveEditTask now user editTaskId fields o st).1.tasks := by
  unfold saveEditTask
  dsimp only
  split
  · exact hu
  split
  · exact hu
  split
  · exact hu
  by_cases hdate : fields.date = ""
  · simp only [editDueDateIso, if_pos hdate]
    exact saveEditCore_uniqueIds hu
  · simp only [if_neg hdate]
    split
    · rename_i stopped heq
      split at heq
      · exact Option.noConfusion heq
      split at heq
      · exact Option.noConfusion heq
      split at heq
      · cases heq
        exact hu
      split at heq
      · cases heq
        exact hu
      · exact Option.noConfusion heq
    · exact saveEditCore_uniqueIds hu

theorem handleDeleteTask_uniqueIds {user : Option String} {taskId : String}
    {o : SimpleOutcome} {st : EditorSt} (hu : UniqueIds st.tasks) :
    UniqueIds (handleDeleteTask user taskId o st).1.tasks := by
  unfold handleDeleteTask
  split
  · exact hu
  cases user with
  | none => exact hu
  | some uid =>
    cases o with
    | ok =>
      show UniqueIds (st.tasks.filter _)
      exact uniqueIds_filter _ hu
    | err msg => exact hu
    | thrown msgOpt => exact hu

theorem uniqueIds_append_fresh {l : List Task} {t : Task} (hu : UniqueIds l)
    (hfresh : t.id ∉ l.map Task.id) : UniqueIds (l ++ [t]) := by
  unfold UniqueIds at *
  rw [List.map_append, List.nodup_append]
  refine ⟨hu, List.nodup_singleton _, ?_⟩
  intro x hx hx2
  simp only [List.map_cons, List.map_nil, List.mem_singleton] at hx2
  rw [hx2] at hx
  exact hfresh hx

theorem handleAddTask_uniqueIds {now : Int} {user : Option String}
    {form : NewTaskForm} {o : WriteOutcome} {st : EditorSt} (hu : UniqueIds st.tasks)
    (hfresh : ∀ row, o = .ok row → row.id ∉ st.tasks.map Task.id) :
    UniqueIds (handleAddTask now user form o st).1.tasks := by
  unfold handleAddTask
  dsimp only
  split
  · exact hu
  split
  · exact hu
  split
  · exact hu
  split
  · exact hu
  cases user with
  | none => exact hu
  | some uid =>
    dsimp only
    split
    · rename_i stopped heq
      split at heq
      · exact Option.noConfusion heq
      split at heq
      · exact Option.noConfusion heq
      split at heq
      · cases heq
        exact hu
      split at heq
      · cases heq
        exact hu
      split at heq
      · cases heq
        exact hu
      · exact Option.noConfusion heq
    · cases o with
      | ok row =>
        show UniqueIds (st.tasks ++ [mapTaskRow row])
        exact uniqueIds_append_fresh hu (hfresh row rfl)
      | okNone => exact hu
      | err msg => exact hu
      | thrown msgOpt => exact hu

theorem applyRealtimeChange_uniqueIds {p : Payload} {l : List Task}
    (hu : UniqueIds l) : UniqueIds (applyRealtimeChange p l) := by
  unfold applyRealtimeChange
  have hupsert : UniqueIds (applyUpsert p.new l) := by
    cases hnew : p.new with
    | none => exact hu
    | some row => exact (applyUpsert_matchers row hu).1
  cases p.old with
  | none => exact hupsert
  | some o =>
    show UniqueIds (if p.eventType = "DELETE" ∧ o.id ≠ "" then
      l.filter (fun task : Task => task.id ≠ o.id) else applyUpsert p.new l)
    by_cases hc : p.eventType = "DELETE" ∧ o.id ≠ ""
    · rw [if_pos hc]
      exact uniqueIds_filter _ hu
    · rw [if_neg hc]
      exact hupsert

/-- C8 as stated is false: confirming a create appends the
server-assigned row unconditionally, so when a task with the same id
is already present (for example because the realtime INSERT event for
that row was applied first) the list ends up holding the id twice. -/
theorem unique_ids_counterexample :
    UniqueIds sampleSt.tasks ∧
    ¬ UniqueIds (handleAddTask 1704067200000 (some "u") sampleForm
        (.ok { id := "a", title := "t", description := none, due_date := none,
               completed := none, priority := none })
        sampleSt).1.tasks := by
  constructor
  · unfold UniqueIds
    decide
  · unfold UniqueIds
    decide

/-- C8 amended: on a list with at most one task per id, toggle, edit,
delete, create confirmation with a server-assigned id not already
present, and every remote insert/update/delete event preserve the
invariant; the unconditional append of a create confirmation preserves
it only under that freshness condition. -/
theorem operations_preserve_unique_ids (st : EditorSt) (hu : UniqueIds st.tasks) :
    (∀ user id o, UniqueIds (toggleTask user id o st).1.tasks) ∧
    (∀ now user editTaskId fields o,
      UniqueIds (saveEditTask now user editTaskId fields o st).1.tasks) ∧
    (∀ user taskId o, UniqueIds (handleDeleteTask user taskId o st).1.tasks) ∧
    (∀ now user form o, (∀ row, o = WriteOutcome.ok row → row.id ∉ st.tasks.map Task.id) →
      UniqueIds (handleAddTask now user form o st).1.tasks) ∧
    (∀ p, UniqueIds (applyRealtimeChange p st.tasks)) :=
  ⟨fun _ _ _ => toggleTask_uniqueIds hu,
   fun _ _ _ _ _ => saveEditTask_uniqueIds hu,
   fun _ _ _ => handleDeleteTask_uniqueIds hu,
   fun _ _ _ _ hfresh => handleAddTask_uniqueIds hu hfresh,
   fun _ => applyRealtimeChange_uniqueIds hu⟩

theorem operations_preserve_unique_ids_witness :
    UniqueIds sampleSt.tasks ∧
    UniqueIds (toggleTask (some "u") "a" .okNone sampleSt).1.tasks :=
  ⟨by unfold UniqueIds; decide,
    (operations_preserve_unique_ids sampleSt (by unfold UniqueIds; decide)).1
      (some "u") "a" .okNone⟩

end TaskFlow
